import Mathlib

/-!
Verification of the RustySand simulation core (src/rusty-sand/src/main.rs).

Modelling conventions, chosen once for the whole development:

* The source fixes `GRID_WIDTH = 200` as a compile-time constant and uses a
  square grid of `GRID_WIDTH * GRID_WIDTH` cells.  Every definition below takes
  the grid width `gw` as an explicit parameter standing for that constant, so
  that properties quantified over all grids can be stated and concrete small
  grids can be evaluated; `GRID_WIDTH` records the value used by the program.
* Rust `f32` / `f64` values are modelled as exact rationals (`Rat`); the
  arithmetic appearing in the source (addition, multiplication by constants,
  `min`, `abs`, comparison, truncating cast to `i32`) is idealized real
  arithmetic, which the source approximates in floating point.
* The thread-local random generator (`rand::thread_rng`) is modelled as an
  explicit stream `rng : Nat -> Rat` of draws in `[0,1)` together with a
  counter `k` threaded through the computation; `gen_bool p` reads one draw `u`
  and yields `u < p`, `gen : f64` reads one draw.
* Rust indexing `v[i]` panics when `i` is out of bounds. Every such access is
  modelled with `List.get?`; a failed access aborts the computation, so the
  partial functions return `Option` and a panic is `none`.
* Rust `as usize` on a negative `i32` wraps to a huge number; the wrapped
  index is out of range for every realistic grid, so the model sends negative
  coordinates to an out-of-range index as well (`usizeCast`).
* Rust integer division on `i32` truncates toward zero, which is `Int.tdiv`.
-/

namespace RustySand

/-- Grid width constant of the program (the model takes it as a parameter). -/
def GRID_WIDTH : Nat := 200

/-- The number of cells of a square grid of width `gw`. -/
def GRID_SIZE (gw : Nat) : Nat := gw * gw

/-- Material tags, from `enum CellType`. -/
inductive CellType where
  | Air
  | Sand
  | Stone
  | Water
  | Dirt
  | Coal
  | Co2
deriving DecidableEq, Repr

/-- From `CellType::is_solid`. -/
def CellType.is_solid : CellType → Bool
  | .Air => false
  | .Sand => true
  | .Stone => true
  | .Water => false
  | .Dirt => true
  | .Coal => true
  | .Co2 => false

/-- From `CellType::is_movable_solid`. -/
def CellType.is_movable_solid : CellType → Bool
  | .Air => false
  | .Sand => true
  | .Stone => false
  | .Water => false
  | .Dirt => true
  | .Coal => true
  | .Co2 => false

/-- From `CellType::get_inertial_resistance` (an `f64`, modelled as `Rat`). -/
def CellType.get_inertial_resistance : CellType → Rat
  | .Sand => 0.1
  | .Dirt => 0.4
  | .Coal => 0.8
  | _ => 0.0

/-- From `CellType::get_roll_speed` (an `f32`, modelled as `Rat`). -/
def CellType.get_roll_speed : CellType → Rat
  | .Air => 0.0
  | .Sand => 2.0
  | .Dirt => 1.5
  | .Coal => 1.0
  | _ => 0.0

/-- Per-slot simulation state, from `struct Cell`.  The pair `velocity` is
`(x component, y component)`; `color` is the RGBA quadruple. -/
structure Cell where
  cell_type : CellType
  velocity : Rat × Rat
  free_falling : Nat
  pos : Nat
  grounded : Bool
  color : Nat × Nat × Nat × Nat
deriving DecidableEq, Repr

/-- From `Cell::new`: a fresh cell of the given material, with the color
chosen by material, zero velocity, `free_falling = 0`, `pos = GRID_SIZE + 1`,
not grounded. -/
def Cell.new (gw : Nat) (cell_type : CellType) : Cell :=
  let color :=
    match cell_type with
    | .Sand => (252, 186, 3, 255)
    | .Dirt => (89, 44, 20, 255)
    | _ => (0, 0, 0, 255)
  { cell_type := cell_type
    velocity := (0, 0)
    free_falling := 0
    pos := GRID_SIZE gw + 1
    grounded := false
    color := color }

/-- The grid, from `struct Grid`: a flat row-major list of cells. -/
structure Grid where
  grid : List Cell
deriving DecidableEq, Repr

/-- The deferred-change buffer, from `struct Changes`: position swaps and
free-fall overrides collected during a pass. -/
structure Changes where
  pos : List (Nat × Nat)
  free_falling : List (Nat × Nat)
deriving DecidableEq, Repr

/-- The empty change buffer (`Changes::default`). -/
def Changes.default : Changes := ⟨[], []⟩

/-- A well-formed grid for width `gw` holds exactly `gw * gw` cells. -/
def Grid.Wellformed (gw : Nat) (g : Grid) : Prop :=
  g.grid.length = GRID_SIZE gw

/-- Truncation of a rational toward zero, the semantics of the Rust cast
`f32 as i32` (ignoring saturation, which is unreachable at the scales the
claims use). -/
def ratTrunc (q : Rat) : Int :=
  if 0 ≤ q then q.floor else -((-q).floor)

/-- The Rust cast `i32 as usize`: nonnegative values embed, negative values
wrap to an index that is out of range for every realistic grid; the model
sends them to `2 ^ 64` plus the value. -/
def usizeCast (x : Int) : Nat :=
  (x % (2 ^ 64 : Int)).toNat

/-- The random source: an explicit stream of rational draws in `[0,1)`
standing for the thread-local generator, read at an explicit counter. -/
def RngStream : Type := Nat → Rat

/-- One `gen_bool p` call: compare the next draw with `p`, advance counter. -/
def genBool (rng : RngStream) (k : Nat) (p : Rat) : Bool × Nat :=
  (decide (rng k < p), k + 1)

/-! ## Line rasterizer, from `generate_line` and `line_to_steps`.

The source loops forever until a `break`; the model recurses on a fuel
argument, and `generate_line` supplies fuel `|dx| + |dy| + 1`, which the
termination lemmas show is never exhausted. -/

/-- The loop body of `generate_line`.  Each iteration pushes the current
point; the three `break` sites of the source are the three `[]` branches. -/
def bresLoop (x2 y2 dx dy : Int) (xpositive ypositive : Bool) :
    Nat → Int → Int → Int → List (Int × Int)
  | 0, x1, y1, _ => [(x1, y1)]
  | fuel + 1, x1, y1, error =>
    (x1, y1) ::
      (if x1 = x2 ∧ y1 = y2 then []
       else
        let e2 := 2 * error
        if e2 ≥ dy ∧ x1 = x2 then []
        else
          let x1' := if e2 ≥ dy then (if xpositive then x1 + 1 else x1 - 1) else x1
          let error' := if e2 ≥ dy then error + dy else error
          if e2 ≤ dx ∧ y1 = y2 then []
          else
            let y1' := if e2 ≤ dx then (if ypositive then y1 + 1 else y1 - 1) else y1
            let error'' := if e2 ≤ dx then error' + dx else error'
            bresLoop x2 y2 dx dy xpositive ypositive fuel x1' y1' error'')

/-- From `generate_line`: the integer Bresenham rasterization of the segment
from `pos1` to `pos2`, inclusive. -/
def generate_line (pos1 pos2 : Nat × Nat) : List (Int × Int) :=
  let x1 : Int := pos1.1
  let x2 : Int := pos2.1
  let y1 : Int := pos1.2
  let y2 : Int := pos2.2
  let dx : Int := (x1 - x2).natAbs
  let xpositive : Bool := !(decide (x1 > x2))
  let dy : Int := -((y1 - y2).natAbs : Int)
  let ypositive : Bool := !(decide (y1 > y2))
  let error := dx + dy
  bresLoop x2 y2 dx dy xpositive ypositive (dx.toNat + (-dy).toNat + 1) x1 y1 error

/-- From `line_to_steps`: the consecutive differences of a point list.  The
source indexes `line[0]` and would panic on an empty list; `generate_line`
output is never empty, and the model returns `[]` there. -/
def line_to_steps : List (Int × Int) → List (Int × Int)
  | [] => []
  | [_] => []
  | p :: q :: rest => (q.1 - p.1, q.2 - p.2) :: line_to_steps (q :: rest)

/-! ## Grid operations: place and place_line. -/

/-- From `Grid::place`: write a fresh cell of the material at `pos` only if
the cell there is air; reading `self.grid[pos]` panics out of bounds. -/
def Grid.place (gw : Nat) (g : Grid) (pos : Nat) (cell_type : CellType) :
    Option Grid :=
  match g.grid.get? pos with
  | none => none
  | some cell =>
    if cell.cell_type = CellType.Air then some ⟨g.grid.set pos (Cell.new gw cell_type)⟩
    else some g

/-- Loop of `Grid::place_line`: place the material at every traversed point. -/
def placeLineLoop (gw : Nat) (cell_type : CellType) :
    List (Int × Int) → Grid → Option Grid
  | [], g => some g
  | point :: rest, g =>
    match g.place gw (usizeCast point.2 * gw + usizeCast point.1) cell_type with
    | none => none
    | some g' => placeLineLoop gw cell_type rest g'

/-- From `Grid::place_line`: rasterize `pos1 -> pos2` and place along it. -/
def Grid.place_line (gw : Nat) (g : Grid) (pos1 pos2 : Nat × Nat)
    (cell_type : CellType) : Option Grid :=
  placeLineLoop gw cell_type (generate_line pos1 pos2) g

/-! ## Neighbor sampler, from `Cell::get_neighbours` and `Cell::get_neighbour`.

The nested while loops of `get_neighbours` with their index bookkeeping fill a
fixed 8-slot array in the order top-left, top, top-right, left, right,
bottom-left, bottom, bottom-right, leaving `(0, None)` for slots whose row
falls outside the grid or whose column wraps across a row boundary; the model
computes each slot directly. -/

/-- One slot of the 3 x 3 block: row offset `i`, column offset `j`, with the
bounds and row-wrap guards of the source (`i32` division truncates). -/
def neighbourSlot (gw : Nat) (g : Grid) (pos : Nat) (i j : Int) :
    Nat × Option Cell :=
  let row : Int := (pos : Int) + i * (gw : Int)
  if row < 0 ∨ row ≥ (GRID_SIZE gw : Int) then (0, none)
  else
    let p := row + j
    if row.tdiv (gw : Int) ≠ p.tdiv (gw : Int) ∨ p < 0 ∨ p ≥ (GRID_SIZE gw : Int) then
      (0, none)
    else (p.toNat, g.grid.get? p.toNat)

/-- From `Cell::get_neighbours`: the fixed-order 8-slot neighborhood. -/
def get_neighbours (gw : Nat) (g : Grid) (pos : Nat) : List (Nat × Option Cell) :=
  [neighbourSlot gw g pos (-1) (-1), neighbourSlot gw g pos (-1) 0,
   neighbourSlot gw g pos (-1) 1,
   neighbourSlot gw g pos 0 (-1), neighbourSlot gw g pos 0 1,
   neighbourSlot gw g pos 1 (-1), neighbourSlot gw g pos 1 0,
   neighbourSlot gw g pos 1 1]

/-- From `Cell::get_neighbour`: a single neighbor in direction `dir`,
`(0, None)` when the target coordinates leave the grid. -/
def get_neighbour (gw : Nat) (g : Grid) (pos : Nat) (dir : Int × Int) :
    Nat × Option Cell :=
  let x : Int := (pos % gw : Nat) + dir.1
  let y : Int := (pos / gw : Nat) + dir.2
  if x < 0 ∨ x ≥ (gw : Int) ∨ y < 0 ∨ y ≥ (gw : Int) then (0, none)
  else
    let p := y.toNat * gw + x.toNat
    (p, g.grid.get? p)

/-- The empty 8-slot neighbor array (`[(0, None); 8]`). -/
def emptyNbs : List (Nat × Option Cell) := List.replicate 8 (0, none)

/-! ## Force model, from `Cell::movable_solid_logic`, split into its
successive stages exactly in source order. -/

/-- The slot indices of the movable-solid neighbors, in slot order, from the
collection loop at the top of `movable_solid_logic`. -/
def movable_solid_neighbours (gw : Nat) (g : Grid) (pos : Nat) : List Nat :=
  ((get_neighbours gw g pos).filter
    (fun pn => pn.2.any fun c => c.cell_type.is_movable_solid)).map Prod.fst

/-- The disturb loop: for each movable-solid neighbor `n`, with probability
`1 - inertial_resistance(material of grid[n])` enqueue a free-fall override
setting `n` to `2 * threshold = 8`; reading `grid.grid[n]` panics out of
bounds. -/
def disturbLoop (rng : RngStream) (g : Grid) :
    List Nat → Changes → Nat → Option (Changes × Nat)
  | [], ch, k => some (ch, k)
  | n :: rest, ch, k =>
    match g.grid.get? n with
    | none => none
    | some nc =>
      let b := decide (rng k < 1 - nc.cell_type.get_inertial_resistance)
      let ch' :=
        if b then { ch with free_falling := ch.free_falling ++ [(n, 8)] } else ch
      disturbLoop rng g rest ch' (k + 1)

/-- Stage 1 of `movable_solid_logic`: neighbor array setup and, when
`free_falling < 4`, the disturb pass (skipped when the movable-solid
neighbor count is 5 or more). -/
def msl_stageA (gw : Nat) (rng : RngStream) (g : Grid) (self : Cell)
    (pos : Nat) (ch : Changes) (k : Nat) :
    Option (List (Nat × Option Cell) × Changes × Nat) :=
  if self.free_falling < 4 then
    let nbs := get_neighbours gw g pos
    let msn := movable_solid_neighbours gw g pos
    if msn.length < 5 then
      match disturbLoop rng g msn ch k with
      | none => none
      | some (ch', k') => some (nbs, ch', k')
    else some (nbs, ch, k)
  else if self.free_falling = 8 then
    some (((emptyNbs.set 5 (get_neighbour gw g pos (-1, 1))).set 6
      (get_neighbour gw g pos (0, 1))).set 7 (get_neighbour gw g pos (1, 1)),
      ch, k)
  else
    some (emptyNbs.set 6 (get_neighbour gw g pos (0, 1)), ch, k)

/-- Occupied count over slots 5, 6, 7: an absent slot or a solid neighbor
counts as occupied. -/
def occupiedCount (nbs : List (Nat × Option Cell)) : Nat :=
  (List.range 3).foldl
    (fun acc i =>
      match (nbs.getD (5 + i) (0, none)).2 with
      | some c => if c.cell_type.is_solid then acc + 1 else acc
      | none => acc + 1)
    0

/-- Stage 2 of `movable_solid_logic`: validate an externally set
`free_falling = 8` marker, converting it to 4 when all three lower slots are
occupied and to 0 otherwise. -/
def msl_validate (self : Cell) (nbs : List (Nat × Option Cell)) : Cell :=
  if self.free_falling = 8 then
    if occupiedCount nbs = 3 then { self with free_falling := 4 }
    else { self with free_falling := 0 }
  else self

/-- The grounded test of `movable_solid_logic`: `grounded` starts `true` and
becomes `false` only when slot 6 holds an air cell. -/
def msl_grounded (nbs : List (Nat × Option Cell)) : Bool :=
  (nbs.getD 6 (0, none)).2.all fun c => !(decide (c.cell_type = CellType.Air))

/-- The horizontal drag of `movable_solid_logic`: when `|vx| >= 1`, multiply
by 0.8 and snap to 0 when the result has magnitude at most 1. -/
def msl_drag (self : Cell) : Cell :=
  if |self.velocity.1| ≥ 1 then
    let v := self.velocity.1 * 0.8
    if |v| ≤ 1 then { self with velocity := (0, self.velocity.2) }
    else { self with velocity := (v, self.velocity.2) }
  else self

/-- The just-landed branch of `movable_solid_logic`: absorb vertical speed
into a lateral kick toward a free side compatible with the current
horizontal velocity sign. -/
def msl_just_landed (rng : RngStream) (self : Cell)
    (nbs : List (Nat × Option Cell)) (k : Nat) : Cell × Nat :=
  let r := rng k
  let k1 := k + 1
  let absorbed_speed := min 4 (self.velocity.2 * r)
  let left_free :=
    ((nbs.getD 3 (0, none)).2.any fun c => decide (c.cell_type = CellType.Air))
      && decide (self.velocity.1 ≤ 0)
  let right_free :=
    ((nbs.getD 4 (0, none)).2.any fun c => decide (c.cell_type = CellType.Air))
      && decide (self.velocity.1 ≥ 0)
  let lr : Bool × Bool × Nat :=
    if left_free && right_free then
      if decide (rng k1 < 0.5) then (false, right_free, k1 + 1)
      else (left_free, false, k1 + 1)
    else (left_free, right_free, k1)
  let self' :=
    if lr.1 then { self with velocity := (-absorbed_speed, self.velocity.2) }
    else if lr.2.1 then { self with velocity := (absorbed_speed, self.velocity.2) }
    else self
  (self', lr.2.2)

/-- The rolling branch of `movable_solid_logic`: tip toward a free
diagonal-below side, or freeze with the hardcoded sand inertial resistance
cubed when the sides are not both free. -/
def msl_rolling (rng : RngStream) (self : Cell)
    (nbs : List (Nat × Option Cell)) (k : Nat) : Cell × Nat :=
  let left_bottom_free :=
    ((nbs.getD 5 (0, none)).2.any fun c => decide (c.cell_type = CellType.Air))
      && decide (self.velocity.1 ≤ 0)
  let right_bottom_free :=
    ((nbs.getD 7 (0, none)).2.any fun c => decide (c.cell_type = CellType.Air))
      && decide (self.velocity.1 ≥ 0)
  let res : Bool × Bool × Cell × Nat :=
    if left_bottom_free && right_bottom_free then
      if decide (rng k < 0.5) then (false, right_bottom_free, self, k + 1)
      else (left_bottom_free, false, self, k + 1)
    else
      if decide (rng k < CellType.get_inertial_resistance CellType.Sand ^ 3) then
        (false, false, { self with free_falling := 4 }, k + 1)
      else (left_bottom_free, right_bottom_free, self, k + 1)
  let selfA := res.2.2.1
  let selfB :=
    if res.1 then
      { selfA with velocity := (-(CellType.get_roll_speed selfA.cell_type), selfA.velocity.2) }
    else if res.2.1 then
      { selfA with velocity := (CellType.get_roll_speed selfA.cell_type, selfA.velocity.2) }
    else selfA
  (selfB, res.2.2.2)

/-- The grounded tail of `movable_solid_logic`: set the constant downward
step, then increment and clamp the free-fall counter when the cell occupied
the same index at the start of the previous tick. -/
def msl_rest_increment (self : Cell) (pos : Nat) : Cell :=
  let self2 := { self with velocity := (self.velocity.1, CellType.get_roll_speed self.cell_type) }
  if self2.pos = pos then
    let ff := self2.free_falling + 1
    if 4 < ff then { self2 with free_falling := 4, velocity := (0, self2.velocity.2) }
    else { self2 with free_falling := ff }
  else self2

/-- The gravity, landing, rolling and rest-increment block of
`movable_solid_logic` (everything from `if !grounded` to the end, except the
final store of the grounded flag). -/
def msl_motion (rng : RngStream) (self : Cell) (pos : Nat) (grounded : Bool)
    (nbs : List (Nat × Option Cell)) (k : Nat) : Cell × Nat :=
  if !grounded then
    ({ self with
        velocity := (self.velocity.1, self.velocity.2 + 0.3)
        free_falling := 0 }, k)
  else
    let step1 : Cell × Nat :=
      if !self.grounded then msl_just_landed rng self nbs k
      else if self.free_falling < 4 then msl_rolling rng self nbs k
      else (self, k)
    (msl_rest_increment step1.1 pos, step1.2)

/-- From `Cell::movable_solid_logic`: the full force-model pass for one
movable-solid cell, in source order: neighbor setup and disturb pass,
validation of the `2 * threshold` marker, grounded test, horizontal drag,
gravity or landing or rolling, rest increment, and the final store of the
grounded flag. -/
def Cell.movable_solid_logic (gw : Nat) (rng : RngStream) (g : Grid)
    (self : Cell) (pos : Nat) (ch : Changes) (k : Nat) :
    Option (Cell × Changes × Nat) :=
  match msl_stageA gw rng g self pos ch k with
  | none => none
  | some (nbs, ch1, k1) =>
    let self1 := msl_validate self nbs
    let grounded := msl_grounded nbs
    let self2 := msl_drag self1
    let m := msl_motion rng self2 pos grounded nbs k1
    some ({ m.1 with grounded := grounded }, ch1, m.2)

/-! ## Movement resolver, from `Cell::physics`. -/

/-- The step walk of `Cell::physics`: from the current accepted point, try
each rasterized step; a solid candidate on an axis-aligned step stops the
walk, a solid candidate on a diagonal step tries the two axis-aligned
alternates in fixed order; grid reads panic out of bounds. -/
def physicsWalk (gw : Nat) (g : Grid) :
    List (Int × Int) → Int × Int → Nat → Option Nat
  | [], _, new_pos => some new_pos
  | step :: rest, new_point, new_pos =>
    let point_xy := (new_point.1 + step.1, new_point.2 + step.2)
    let temp := usizeCast point_xy.2 * gw + usizeCast point_xy.1
    match g.grid.get? temp with
    | none => none
    | some c =>
      if c.cell_type.is_solid then
        if step.1 = 0 ∨ step.2 = 0 then some new_pos
        else
          let t1 := (point_xy.1, new_point.2)
          let temp1 := usizeCast t1.2 * gw + usizeCast t1.1
          match g.grid.get? temp1 with
          | none => none
          | some c1 =>
            if c1.cell_type.is_solid then
              let t2 := (new_point.1, point_xy.2)
              let temp2 := usizeCast t2.2 * gw + usizeCast t2.1
              match g.grid.get? temp2 with
              | none => none
              | some c2 =>
                if c2.cell_type.is_solid then some new_pos
                else physicsWalk gw g rest t2 temp2
            else physicsWalk gw g rest t1 temp1
      else physicsWalk gw g rest point_xy temp

/-- From `Cell::physics`: truncate the velocity, clamp the intended
destination to the grid, rasterize the segment and walk it, returning the
final accepted index. -/
def Cell.physics (gw : Nat) (g : Grid) (self : Cell) (pos : Nat) : Option Nat :=
  let ix0 : Int := ((pos % gw : Nat) : Int) + ratTrunc self.velocity.1
  let iy0 : Int := ((pos / gw : Nat) : Int) + ratTrunc self.velocity.2
  let ix1 : Int := if ix0 < 0 then 0 else ix0
  let iy1 : Int := if iy0 < 0 then 0 else iy0
  let ix : Int := if ix1 ≥ (gw : Int) then (gw : Int) - 1 else ix1
  let iy : Int := if iy1 ≥ (gw : Int) then (gw : Int) - 1 else iy1
  let steps := line_to_steps (generate_line (pos % gw, pos / gw) (ix.toNat, iy.toNat))
  physicsWalk gw g steps (((pos % gw : Nat) : Int), ((pos / gw : Nat) : Int)) pos

/-! ## Per-cell logic and the tick driver. -/

/-- The shared sand and dirt body of `Cell::logic`: run the force model,
then the movement resolver when horizontally moving or not settled, enqueue
a position swap when the resolved index differs, and record the index
occupied this tick. -/
def logicMovable (gw : Nat) (rng : RngStream) (g : Grid) (self : Cell)
    (pos : Nat) (ch : Changes) (k : Nat) : Option (Cell × Changes × Nat) :=
  match Cell.movable_solid_logic gw rng g self pos ch k with
  | none => none
  | some (c1, ch1, k1) =>
    match (if c1.velocity.1 ≠ 0 ∨ c1.free_falling < 4 then
            Cell.physics gw g c1 pos
          else some pos) with
    | none => none
    | some new_pos =>
      let ch2 :=
        if pos ≠ new_pos then { ch1 with pos := ch1.pos ++ [(pos, new_pos)] }
        else ch1
      some ({ c1 with pos := pos }, ch2, k1)

/-- From `Cell::logic`: sand and dirt run the shared movable-solid body,
every other material does nothing. -/
def Cell.logic (gw : Nat) (rng : RngStream) (g : Grid) (self : Cell)
    (pos : Nat) (ch : Changes) (k : Nat) : Option (Cell × Changes × Nat) :=
  match self.cell_type with
  | .Sand | .Dirt => logicMovable gw rng g self pos ch k
  | _ => some (self, ch, k)

/-- One iteration of the scan loop of `Grid::execute_logic`: read the cell at
`i`, run its logic against the current grid, write it back in place. -/
def scanStep (gw : Nat) (rng : RngStream) (g : Grid) (i : Nat) (ch : Changes)
    (k : Nat) : Option (Grid × Changes × Nat) :=
  match g.grid.get? i with
  | none => none
  | some cell =>
    match Cell.logic gw rng g cell i ch k with
    | none => none
    | some (c', ch', k') => some (⟨g.grid.set i c'⟩, ch', k')

/-- The scan loop of `Grid::execute_logic` over a list of indices. -/
def scanLoop (gw : Nat) (rng : RngStream) :
    List Nat → Grid → Changes → Nat → Option (Grid × Changes × Nat)
  | [], g, ch, k => some (g, ch, k)
  | i :: rest, g, ch, k =>
    match scanStep gw rng g i ch k with
    | none => none
    | some (g', ch', k') => scanLoop gw rng rest g' ch' k'

/-- From `Vec::swap`: exchange the cells at `i` and `j`, panicking (None)
when either index is out of bounds. -/
def swapCells (l : List Cell) (i j : Nat) : Option (List Cell) :=
  match l.get? i, l.get? j with
  | some a, some b => some ((l.set i b).set j a)
  | _, _ => none

/-- The swap-apply phase of `Grid::execute_logic`. -/
def applySwaps : List (Nat × Nat) → Grid → Option Grid
  | [], g => some g
  | p :: rest, g =>
    match swapCells g.grid p.1 p.2 with
    | none => none
    | some l => applySwaps rest ⟨l⟩

/-- The free-fall override phase of `Grid::execute_logic`: write the recorded
value into the `free_falling` field of the cell at the recorded index. -/
def applyOverrides : List (Nat × Nat) → Grid → Option Grid
  | [], g => some g
  | p :: rest, g =>
    match g.grid.get? p.1 with
    | none => none
    | some c => applyOverrides rest ⟨g.grid.set p.1 { c with free_falling := p.2 }⟩

/-- From `Grid::execute_logic`: one simulation tick, scanning all indices in
ascending order against the current grid, then applying the buffered position
swaps and the buffered free-fall overrides. -/
def Grid.execute_logic (gw : Nat) (rng : RngStream) (g : Grid) (k : Nat) :
    Option (Grid × Nat) :=
  match scanLoop gw rng (List.range (GRID_SIZE gw)) g Changes.default k with
  | none => none
  | some (g1, ch, k1) =>
    match applySwaps ch.pos g1 with
    | none => none
    | some g2 =>
      match applyOverrides ch.free_falling g2 with
      | none => none
      | some g3 => some (g3, k1)

/-- N-tick iteration of the simulation, threading the grid and the random
counter; used to state determinism over state sequences. -/
def run_ticks (gw : Nat) (rng : RngStream) : Nat → Grid → Nat → Option (Grid × Nat)
  | 0, g, k => some (g, k)
  | n + 1, g, k =>
    match Grid.execute_logic gw rng g k with
    | none => none
    | some (g', k') => run_ticks gw rng n g' k'

/-- The sequence of grid states over `n` ticks (None once a tick panics);
element 0 is the initial grid. -/
def state_sequence (gw : Nat) (rng : RngStream) (n : Nat) (g : Grid) (k : Nat) :
    List (Option Grid) :=
  (List.range (n + 1)).map fun i => (run_ticks gw rng i g k).map Prod.fst

/-! ## Specification predicates used by the theorems. -/

/-- Correctness bundle for a rasterized point list with step directions
`sx, sy`: it starts at `(x1, y1)`, ends at `(x2, y2)`, each consecutive step
moves by 0 or one unit in the step direction on each axis, and every point
lies between start and end on both axes. -/
def BresOut (sx sy x1 y1 x2 y2 : Int) (pts : List (Int × Int)) : Prop :=
  pts.head? = some (x1, y1) ∧ pts.getLast? = some (x2, y2) ∧
  List.Chain'
    (fun p q => (q.1 - p.1 = 0 ∨ q.1 - p.1 = sx) ∧ (q.2 - p.2 = 0 ∨ q.2 - p.2 = sy))
    pts ∧
  ∀ p ∈ pts, 0 ≤ sx * (x2 - p.1) ∧ 0 ≤ sx * (p.1 - x1) ∧
    0 ≤ sy * (y2 - p.2) ∧ 0 ≤ sy * (p.2 - y1)

/-- The free-fall range invariant of a grid: every cell holds a counter in
`[0, 4]`, or the transient marker 8 written by the override phase. -/
def FreeFallInv (g : Grid) : Prop :=
  ∀ c ∈ g.grid, c.free_falling ≤ 4 ∨ c.free_falling = 8

/-- Horizontal step direction of the rasterizer for the given endpoints. -/
def lineSx (pos1 pos2 : Nat × Nat) : Int :=
  if (pos1.1 : Int) > (pos2.1 : Int) then -1 else 1

/-- Vertical step direction of the rasterizer for the given endpoints. -/
def lineSy (pos1 pos2 : Nat × Nat) : Int :=
  if (pos1.2 : Int) > (pos2.2 : Int) then -1 else 1

/-- Sum of the negative parts of a list of integers. -/
def sumNeg (l : List Int) : Int := (l.map fun z => min z 0).sum

/-- Sum of the positive parts of a list of integers. -/
def sumPos (l : List Int) : Int := (l.map fun z => max z 0).sum

/-! ## Concrete instances used by witnesses and counterexamples. -/

/-- A movable-solid test cell at rest with the given counter and recorded
index. -/
def testCell (ct : CellType) (ff : Nat) (pos : Nat) : Cell :=
  { cell_type := ct, velocity := (0, 0), free_falling := ff, pos := pos,
    grounded := true, color := (0, 0, 0, 255) }

/-- The all-zero draw stream. -/
def rngZero : RngStream := fun _ => 0

/-- Draw stream with three low draws, then middling draws. -/
def rngBlock : RngStream := fun k => if k < 3 then 0 else 1/2

/-- Draw stream whose first draw is high. -/
def rngFirstHigh : RngStream := fun k => if k = 0 then 1 else 0

/-- Draw stream for the freeze check: the value 1/50 lies strictly between
the cubed sand and cubed dirt inertial resistances. -/
def rngFreeze : RngStream := fun _ => 1/50

/-- 5 x 5 grid: a 3 x 3 sand block in columns 1..3, rows 2..4; the block
cell at (1,2), index 11, is unsettled, the others are settled. -/
def sandBlockGrid : Grid :=
  ⟨(List.range 25).map fun i =>
    if i = 11 then testCell .Sand 0 11
    else if i ∈ [12, 13, 16, 17, 18, 21, 22, 23] then testCell .Sand 4 i
    else Cell.new 5 .Air⟩

/-- 3 x 3 grid with an unsettled sand cell at the center above a settled
sand cell. -/
def pairGrid : Grid :=
  ⟨(List.range 9).map fun i =>
    if i = 4 then testCell .Sand 0 4
    else if i = 7 then testCell .Sand 4 7
    else Cell.new 3 .Air⟩

/-- 3 x 3 grid of dirt with an air hole below-left of the center and a
rolling dirt cell at the center. -/
def dirtRingGrid : Grid :=
  ⟨(List.range 9).map fun i =>
    if i = 6 then Cell.new 3 .Air
    else if i = 4 then testCell .Dirt 0 99
    else testCell .Dirt 4 i⟩

/-- The rolling dirt cell at the center of `dirtRingGrid`; its recorded
index 99 differs from its position, so the rest increment does not fire. -/
def dirtRollCell : Cell := testCell .Dirt 0 99

/-- 1 x 1 grid holding a single settled sand cell on the bottom edge. -/
def gridOne : Grid := ⟨[testCell .Sand 4 0]⟩

/-- The bottom-edge cell of `gridOne`. -/
def cellOne : Cell := testCell .Sand 4 0

/-- The cell of `gridOne` after one force-model pass. -/
def cellOneResult : Cell :=
  { cell_type := .Sand, velocity := (0, 2), free_falling := 4, pos := 0,
    grounded := true, color := (0, 0, 0, 255) }

/-- The grid `gridOne` after one tick. -/
def gridOneResult : Grid := ⟨[cellOneResult]⟩

/-- 3 x 3 grid entirely of settled sand. -/
def fullSandGrid : Grid := ⟨(List.range 9).map fun i => testCell .Sand 4 i⟩

/-- 2 x 2 grid of air. -/
def airTwoGrid : Grid := ⟨List.replicate 4 (Cell.new 2 .Air)⟩

end RustySand

namespace RustySand

/-! # Theorems -/

/-- Auxiliary: the last element of a cons with a nonempty tail. -/
theorem getLast?_cons_of_ne_nil {α : Type} (a : α) {l : List α} (h : l ≠ []) :
    (a :: l).getLast? = l.getLast? := by
  cases l with
  | nil => exact absurd rfl h
  | cons b t => simp [List.getLast?_cons_cons]


/-- The master invariant of the Bresenham loop: starting from a state whose
error term agrees with the remaining distances, the loop output starts at the
current point, terminates exactly at the endpoint, steps by at most one unit
per axis in the fixed directions, and stays inside the bounding box. -/
theorem bresLoop_invariant (x2 y2 dx dy : Int) (xpos ypos : Bool) (sx sy : Int)
    (hsx : sx = (if xpos then 1 else -1)) (hsy : sy = (if ypos then 1 else -1))
    (hdx : 0 ≤ dx) (hdy : dy ≤ 0) :
    ∀ (fuel : Nat) (x1 y1 error : Int),
      0 ≤ sx * (x2 - x1) →
      sx * (x2 - x1) ≤ dx →
      0 ≤ sy * (y2 - y1) →
      sy * (y2 - y1) ≤ -dy →
      error = dx + dy - sx * (x2 - x1) * dy - sy * (y2 - y1) * dx →
      sx * (x2 - x1) + sy * (y2 - y1) < fuel →
      BresOut sx sy x1 y1 x2 y2 (bresLoop x2 y2 dx dy xpos ypos fuel x1 y1 error) := by
  have hsx1 : sx * sx = 1 := by cases xpos <;> simp [hsx]
  have hsy1 : sy * sy = 1 := by cases ypos <;> simp [hsy]
  have hsxne : sx ≠ 0 := by cases xpos <;> simp [hsx]
  have hsyne : sy ≠ 0 := by cases ypos <;> simp [hsy]
  have hdirx : ∀ z : Int, (if xpos then z + 1 else z - 1) = z + sx := by
    intro z; cases xpos <;> simp [hsx] <;> ring
  have hdiry : ∀ z : Int, (if ypos then z + 1 else z - 1) = z + sy := by
    intro z; cases ypos <;> simp [hsy] <;> ring
  intro fuel
  induction fuel with
  | zero =>
    intro x1 y1 error ha haD hb hbE herr hfuel
    exact absurd hfuel (by push_cast; linarith)
  | succ fuel ih =>
    intro x1 y1 error ha haD hb hbE herr hfuel
    push_cast at hfuel
    have hxeq : ∀ z : Int, sx * (x2 - z) = 0 → x2 = z := by
      intro z hz
      rcases mul_eq_zero.mp hz with h | h
      · exact absurd h hsxne
      · linarith [sub_eq_zero.mp h]
    have hyeq : ∀ z : Int, sy * (y2 - z) = 0 → y2 = z := by
      intro z hz
      rcases mul_eq_zero.mp hz with h | h
      · exact absurd h hsyne
      · linarith [sub_eq_zero.mp h]
    by_cases hd : x1 = x2 ∧ y1 = y2
    · obtain ⟨hd1, hd2⟩ := hd
      subst hd1; subst hd2
      have hout : bresLoop x1 y1 dx dy xpos ypos (fuel + 1) x1 y1 error = [(x1, y1)] := by
        simp [bresLoop]
      rw [hout]
      refine ⟨rfl, rfl, List.chain'_singleton _, ?_⟩
      intro p hp
      simp only [List.mem_singleton] at hp
      subst hp
      simp
    · -- the loop takes at least one step toward the endpoint
      have hfalse_xx : x1 = x2 → ¬ (2 * error ≥ dy) := by
        intro hxx hge
        have ha0 : sx * (x2 - x1) = 0 := by rw [hxx]; ring
        have hbne : sy * (y2 - y1) ≠ 0 := fun hb0 => hd ⟨hxx, (hyeq y1 hb0).symm⟩
        have hb1 : 1 ≤ sy * (y2 - y1) := by
          have := Int.lt_iff_add_one_le.mp (lt_of_le_of_ne hb (Ne.symm hbne))
          linarith
        have hkey : 0 ≤ (sy * (y2 - y1) - 1) * dx :=
          mul_nonneg (by linarith) hdx
        rw [herr, ha0] at hge
        nlinarith
      have hfalse_yy : y1 = y2 → ¬ (2 * error ≤ dx) := by
        intro hyy hle
        have hb0 : sy * (y2 - y1) = 0 := by rw [hyy]; ring
        have hane : sx * (x2 - x1) ≠ 0 := fun h0 => hd ⟨(hxeq x1 h0).symm, hyy⟩
        have ha1 : 1 ≤ sx * (x2 - x1) := by
          have := Int.lt_iff_add_one_le.mp (lt_of_le_of_ne ha (Ne.symm hane))
          linarith
        have hkey : 0 ≤ (sx * (x2 - x1) - 1) * (-dy) :=
          mul_nonneg (by linarith) (by linarith)
        rw [herr, hb0] at hle
        nlinarith
      have hcond1 : ¬ (2 * error ≥ dy ∧ x1 = x2) := fun hc => hfalse_xx hc.2 hc.1
      have hcond2 : ¬ (2 * error ≤ dx ∧ y1 = y2) := fun hc => hfalse_yy hc.2 hc.1
      have hone : (2 * error ≥ dy) ∨ (2 * error ≤ dx) := by
        by_contra hno
        push_neg at hno
        linarith [hno.1, hno.2]
      obtain ⟨X, Y, E, hunfold, hXor, hYor, hiv1, hiv2, hiv3, hiv4, hiv5, hiv6⟩ :
          ∃ X Y E,
            bresLoop x2 y2 dx dy xpos ypos (fuel + 1) x1 y1 error =
              (x1, y1) :: bresLoop x2 y2 dx dy xpos ypos fuel X Y E ∧
            (X - x1 = 0 ∨ X - x1 = sx) ∧ (Y - y1 = 0 ∨ Y - y1 = sy) ∧
            0 ≤ sx * (x2 - X) ∧ sx * (x2 - X) ≤ dx ∧
            0 ≤ sy * (y2 - Y) ∧ sy * (y2 - Y) ≤ -dy ∧
            E = dx + dy - sx * (x2 - X) * dy - sy * (y2 - Y) * dx ∧
            sx * (x2 - X) + sy * (y2 - Y) < fuel := by
        by_cases h1 : 2 * error ≥ dy <;> by_cases h2 : 2 * error ≤ dx
        · -- step on both axes
          have hxne : x1 ≠ x2 := fun hh => hcond1 ⟨h1, hh⟩
          have hane : sx * (x2 - x1) ≠ 0 := fun h0 => hxne (hxeq x1 h0).symm
          have ha1 : 1 ≤ sx * (x2 - x1) := by
            have := Int.lt_iff_add_one_le.mp (lt_of_le_of_ne ha (Ne.symm hane))
            linarith
          have hyne : y1 ≠ y2 := fun hh => hcond2 ⟨h2, hh⟩
          have hbne : sy * (y2 - y1) ≠ 0 := fun h0 => hyne (hyeq y1 h0).symm
          have hb1 : 1 ≤ sy * (y2 - y1) := by
            have := Int.lt_iff_add_one_le.mp (lt_of_le_of_ne hb (Ne.symm hbne))
            linarith
          have hax : sx * (x2 - (x1 + sx)) = sx * (x2 - x1) - 1 := by
            rw [show sx * (x2 - (x1 + sx)) = sx * (x2 - x1) - sx * sx from by ring, hsx1]
          have hay : sy * (y2 - (y1 + sy)) = sy * (y2 - y1) - 1 := by
            rw [show sy * (y2 - (y1 + sy)) = sy * (y2 - y1) - sy * sy from by ring, hsy1]
          refine ⟨x1 + sx, y1 + sy, error + dy + dx, ?_, Or.inr (by ring),
            Or.inr (by ring), ?_, ?_, ?_, ?_, ?_, ?_⟩
          · simp only [bresLoop]
            rw [if_neg hd, if_neg hcond1, if_neg hcond2]
            simp only [if_pos h1, if_pos h2, hdirx, hdiry]
          · rw [hax]; linarith
          · rw [hax]; linarith
          · rw [hay]; linarith
          · rw [hay]; linarith
          · rw [hax, hay]; linear_combination herr
          · rw [hax, hay]; linarith
        · -- step on x only
          have hxne : x1 ≠ x2 := fun hh => hcond1 ⟨h1, hh⟩
          have hane : sx * (x2 - x1) ≠ 0 := fun h0 => hxne (hxeq x1 h0).symm
          have ha1 : 1 ≤ sx * (x2 - x1) := by
            have := Int.lt_iff_add_one_le.mp (lt_of_le_of_ne ha (Ne.symm hane))
            linarith
          have hax : sx * (x2 - (x1 + sx)) = sx * (x2 - x1) - 1 := by
            rw [show sx * (x2 - (x1 + sx)) = sx * (x2 - x1) - sx * sx from by ring, hsx1]
          refine ⟨x1 + sx, y1, error + dy, ?_, Or.inr (by ring), Or.inl (by ring),
            ?_, ?_, hb, hbE, ?_, ?_⟩
          · simp only [bresLoop]
            rw [if_neg hd, if_neg hcond1, if_neg hcond2]
            simp only [if_pos h1, if_neg h2, hdirx]
          · rw [hax]; linarith
          · rw [hax]; linarith
          · rw [hax]; linear_combination herr
          · rw [hax]; linarith
        · -- step on y only
          have hyne : y1 ≠ y2 := fun hh => hcond2 ⟨h2, hh⟩
          have hbne : sy * (y2 - y1) ≠ 0 := fun h0 => hyne (hyeq y1 h0).symm
          have hb1 : 1 ≤ sy * (y2 - y1) := by
            have := Int.lt_iff_add_one_le.mp (lt_of_le_of_ne hb (Ne.symm hbne))
            linarith
          have hay : sy * (y2 - (y1 + sy)) = sy * (y2 - y1) - 1 := by
            rw [show sy * (y2 - (y1 + sy)) = sy * (y2 - y1) - sy * sy from by ring, hsy1]
          refine ⟨x1, y1 + sy, error + dx, ?_, Or.inl (by ring), Or.inr (by ring),
            ha, haD, ?_, ?_, ?_, ?_⟩
          · simp only [bresLoop]
            rw [if_neg hd, if_neg hcond1, if_neg hcond2]
            simp only [if_neg h1, if_pos h2, hdiry]
          · rw [hay]; linarith
          · rw [hay]; linarith
          · rw [hay]; linear_combination herr
          · rw [hay]; linarith
        · exact absurd hone (by tauto)
      obtain ⟨IH1, IH2, IH3, IH4⟩ := ih X Y E hiv1 hiv2 hiv3 hiv4 hiv5 hiv6
      rw [hunfold]
      have hLne : bresLoop x2 y2 dx dy xpos ypos fuel X Y E ≠ [] := by
        intro e; rw [e] at IH1; simp at IH1
      refine ⟨rfl, ?_, ?_, ?_⟩
      · rw [getLast?_cons_of_ne_nil _ hLne]; exact IH2
      · refine List.chain'_cons'.mpr ⟨?_, IH3⟩
        intro q hq
        rw [IH1] at hq
        simp only [Option.mem_def, Option.some_inj] at hq
        subst hq
        exact ⟨by simpa using hXor, by simpa using hYor⟩
      · intro p hp
        rcases List.mem_cons.mp hp with hp | hp
        · subst hp
          exact ⟨ha, by simp, hb, by simp⟩
        · obtain ⟨m1, m2, m3, m4⟩ := IH4 p hp
          have hstepx : 0 ≤ sx * (X - x1) := by
            rcases hXor with h | h
            · rw [show X = x1 from by linarith]; simp
            · have e1 : sx * (X - x1) = sx * sx := by rw [h]
              rw [e1, hsx1]; norm_num
          have hstepy : 0 ≤ sy * (Y - y1) := by
            rcases hYor with h | h
            · rw [show Y = y1 from by linarith]; simp
            · have e1 : sy * (Y - y1) = sy * sy := by rw [h]
              rw [e1, hsy1]; norm_num
          refine ⟨m1, ?_, m3, ?_⟩
          · have e2 : sx * (p.1 - x1) = sx * (p.1 - X) + sx * (X - x1) := by ring
            rw [e2]; linarith
          · have e2 : sy * (p.2 - y1) = sy * (p.2 - Y) + sy * (Y - y1) := by ring
            rw [e2]; linarith

/-- The two step directions are units. -/
theorem lineSx_unit (pos1 pos2 : Nat × Nat) :
    lineSx pos1 pos2 = 1 ∨ lineSx pos1 pos2 = -1 := by
  unfold lineSx
  by_cases h : (pos1.1 : Int) > (pos2.1 : Int) <;> simp [h]

/-- The vertical step direction is a unit. -/
theorem lineSy_unit (pos1 pos2 : Nat × Nat) :
    lineSy pos1 pos2 = 1 ∨ lineSy pos1 pos2 = -1 := by
  unfold lineSy
  by_cases h : (pos1.2 : Int) > (pos2.2 : Int) <;> simp [h]

/-- The rasterizer output satisfies the full correctness bundle: it starts at
`pos1`, terminates exactly at `pos2`, steps by at most one unit per axis in
the fixed directions, and stays inside the bounding box of the endpoints. -/
theorem generate_line_spec (pos1 pos2 : Nat × Nat) :
    BresOut (lineSx pos1 pos2) (lineSy pos1 pos2)
      pos1.1 pos1.2 pos2.1 pos2.2 (generate_line pos1 pos2) := by
  have haD' : lineSx pos1 pos2 * ((pos2.1 : Int) - (pos1.1 : Int)) =
      (((pos1.1 : Int) - (pos2.1 : Int)).natAbs : Int) := by
    unfold lineSx
    by_cases h : (pos1.1 : Int) > (pos2.1 : Int)
    · rw [if_pos h]; omega
    · rw [if_neg h]; omega
  have hbE' : lineSy pos1 pos2 * ((pos2.2 : Int) - (pos1.2 : Int)) =
      (((pos1.2 : Int) - (pos2.2 : Int)).natAbs : Int) := by
    unfold lineSy
    by_cases h : (pos1.2 : Int) > (pos2.2 : Int)
    · rw [if_pos h]; omega
    · rw [if_neg h]; omega
  have key := bresLoop_invariant (pos2.1 : Int) (pos2.2 : Int)
      (((pos1.1 : Int) - (pos2.1 : Int)).natAbs : Int)
      (-(((pos1.2 : Int) - (pos2.2 : Int)).natAbs : Int))
      (!(decide ((pos1.1 : Int) > (pos2.1 : Int))))
      (!(decide ((pos1.2 : Int) > (pos2.2 : Int))))
      (lineSx pos1 pos2) (lineSy pos1 pos2)
      (by unfold lineSx; by_cases h : (pos1.1 : Int) > (pos2.1 : Int) <;> simp [h])
      (by unfold lineSy; by_cases h : (pos1.2 : Int) > (pos2.2 : Int) <;> simp [h])
      (by positivity)
      (by simp)
      ((((pos1.1 : Int) - (pos2.1 : Int)).natAbs : Int).toNat +
        (-(-(((pos1.2 : Int) - (pos2.2 : Int)).natAbs : Int))).toNat + 1)
      pos1.1 pos1.2
      ((((pos1.1 : Int) - (pos2.1 : Int)).natAbs : Int) +
        -(((pos1.2 : Int) - (pos2.2 : Int)).natAbs : Int))
      (by rw [haD']; positivity)
      (by rw [haD'])
      (by rw [hbE']; positivity)
      (by rw [hbE']; simp)
      (by rw [haD', hbE']; ring)
      (by rw [haD', hbE']; push_cast; omega)
  simpa only [generate_line] using key

/-- The rasterizer output is never empty. -/
theorem generate_line_ne_nil (pos1 pos2 : Nat × Nat) :
    generate_line pos1 pos2 ≠ [] := by
  intro h
  have := (generate_line_spec pos1 pos2).1
  rw [h] at this
  simp at this

/-- Degenerate case: identical endpoints rasterize to the single point. -/
theorem generate_line_same (p : Nat × Nat) :
    generate_line p p = [((p.1 : Int), (p.2 : Int))] := by
  simp [generate_line, bresLoop]

/-- Negative parts never exceed zero. -/
theorem sumNeg_nonpos (l : List Int) : sumNeg l ≤ 0 := by
  induction l with
  | nil => simp [sumNeg]
  | cons z l ih =>
    have : min z 0 ≤ 0 := min_le_right _ _
    simp only [sumNeg, List.map_cons, List.sum_cons] at ih ⊢
    omega

/-- Positive parts are at least zero. -/
theorem sumPos_nonneg (l : List Int) : 0 ≤ sumPos l := by
  induction l with
  | nil => simp [sumPos]
  | cons z l ih =>
    have : 0 ≤ max z 0 := le_max_right _ _
    simp only [sumPos, List.map_cons, List.sum_cons] at ih ⊢
    omega

/-- Unfolding of the negative-part sum over a cons. -/
theorem sumNeg_cons (z : Int) (l : List Int) :
    sumNeg (z :: l) = min z 0 + sumNeg l := by
  simp [sumNeg]

/-- Unfolding of the positive-part sum over a cons. -/
theorem sumPos_cons (z : Int) (l : List Int) :
    sumPos (z :: l) = max z 0 + sumPos l := by
  simp [sumPos]

/-- On a list of nonnegative entries the negative part vanishes and the
positive part is the plain sum. -/
theorem sumNeg_sumPos_of_nonneg (l : List Int) (h : ∀ z ∈ l, 0 ≤ z) :
    sumNeg l = 0 ∧ sumPos l = l.sum := by
  induction l with
  | nil => simp [sumNeg, sumPos]
  | cons z l ih =>
    obtain ⟨h1, h2⟩ := ih fun z hz => h z (List.mem_cons_of_mem _ hz)
    have hz : 0 ≤ z := h z (List.mem_cons_self _ _)
    rw [sumNeg_cons, sumPos_cons, h1, h2]
    constructor
    · omega
    · simp only [List.sum_cons]
      omega

/-- On a list of nonpositive entries the positive part vanishes and the
negative part is the plain sum. -/
theorem sumNeg_sumPos_of_nonpos (l : List Int) (h : ∀ z ∈ l, z ≤ 0) :
    sumPos l = 0 ∧ sumNeg l = l.sum := by
  induction l with
  | nil => simp [sumNeg, sumPos]
  | cons z l ih =>
    obtain ⟨h1, h2⟩ := ih fun z hz => h z (List.mem_cons_of_mem _ hz)
    have hz : z ≤ 0 := h z (List.mem_cons_self _ _)
    rw [sumNeg_cons, sumPos_cons, h1, h2]
    constructor
    · omega
    · simp only [List.sum_cons]
      omega

/-- Every step produced by `line_to_steps` of a chained list is a difference
of two consecutive chained points. -/
theorem line_to_steps_of_chain {R : Int × Int → Int × Int → Prop} :
    ∀ l : List (Int × Int), List.Chain' R l →
      ∀ s ∈ line_to_steps l, ∃ p q, R p q ∧ s = (q.1 - p.1, q.2 - p.2) := by
  intro l
  induction l with
  | nil => intro _ s hs; simp [line_to_steps] at hs
  | cons p l ih =>
    intro hchain s hs
    cases l with
    | nil => simp [line_to_steps] at hs
    | cons q rest =>
      rw [List.chain'_cons] at hchain
      simp only [line_to_steps, List.mem_cons] at hs
      rcases hs with hs | hs
      · exact ⟨p, q, hchain.1, hs⟩
      · exact ih hchain.2 s hs

/-- Telescoping: the horizontal components of the steps sum to the full
horizontal displacement. -/
theorem line_to_steps_sum_fst :
    ∀ (l : List (Int × Int)) (a b : Int × Int),
      l.head? = some a → l.getLast? = some b →
      ((line_to_steps l).map Prod.fst).sum = b.1 - a.1 := by
  intro l
  induction l with
  | nil => intro a b ha _; simp at ha
  | cons p l ih =>
    intro a b ha hb
    simp only [List.head?_cons, Option.some_inj] at ha
    subst ha
    cases l with
    | nil =>
      simp only [List.getLast?_singleton, Option.some_inj] at hb
      subst hb
      simp [line_to_steps]
    | cons q rest =>
      rw [List.getLast?_cons_cons] at hb
      have := ih q b rfl hb
      simp only [line_to_steps, List.map_cons, List.sum_cons, this]
      ring

/-- Telescoping: the vertical components of the steps sum to the full
vertical displacement. -/
theorem line_to_steps_sum_snd :
    ∀ (l : List (Int × Int)) (a b : Int × Int),
      l.head? = some a → l.getLast? = some b →
      ((line_to_steps l).map Prod.snd).sum = b.2 - a.2 := by
  intro l
  induction l with
  | nil => intro a b ha _; simp at ha
  | cons p l ih =>
    intro a b ha hb
    simp only [List.head?_cons, Option.some_inj] at ha
    subst ha
    cases l with
    | nil =>
      simp only [List.getLast?_singleton, Option.some_inj] at hb
      subst hb
      simp [line_to_steps]
    | cons q rest =>
      rw [List.getLast?_cons_cons] at hb
      have := ih q b rfl hb
      simp only [line_to_steps, List.map_cons, List.sum_cons, this]
      ring

/-- Reading the cast of a coordinate inside the grid range. -/
theorem usizeCast_of_range (x : Int) (gw : Nat) (hgw : (gw : Int) ≤ 2 ^ 64)
    (h0 : 0 ≤ x) (h1 : x < gw) : usizeCast x = x.toNat := by
  unfold usizeCast
  rw [Int.emod_eq_of_lt h0 (by omega)]

/-- The flat index of coordinates inside the square grid is in range. -/
theorem flatIndex_lt (gw x y : Nat) (hx : x < gw) (hy : y < gw) :
    y * gw + x < gw * gw := by
  calc y * gw + x < y * gw + gw := by omega
    _ = (y + 1) * gw := by ring
    _ ≤ gw * gw := Nat.mul_le_mul_right _ (by omega)

/-- Totality and range of the movement-resolver walk: when the prospective
displacements of the remaining steps keep every reachable coordinate inside
the grid, the walk never reads out of bounds and returns an in-range index. -/
theorem physicsWalk_total (gw : Nat) (g : Grid) (hgw : (gw : Int) ≤ 2 ^ 64)
    (hWF : g.grid.length = gw * gw) :
    ∀ (steps : List (Int × Int)) (np : Int × Int) (npos : Nat),
      npos < gw * gw →
      0 ≤ np.1 + sumNeg (steps.map Prod.fst) →
      np.1 + sumPos (steps.map Prod.fst) < gw →
      0 ≤ np.2 + sumNeg (steps.map Prod.snd) →
      np.2 + sumPos (steps.map Prod.snd) < gw →
      ∃ r, physicsWalk gw g steps np npos = some r ∧ r < gw * gw := by
  intro steps
  induction steps with
  | nil =>
    intro np npos hpos _ _ _ _
    exact ⟨npos, rfl, hpos⟩
  | cons s rest ih =>
    intro np npos hpos hlx hhx hly hhy
    simp only [List.map_cons, sumNeg_cons, sumPos_cons] at hlx hhx hly hhy
    have hNr1 := sumNeg_nonpos (rest.map Prod.fst)
    have hPr1 := sumPos_nonneg (rest.map Prod.fst)
    have hNr2 := sumNeg_nonpos (rest.map Prod.snd)
    have hPr2 := sumPos_nonneg (rest.map Prod.snd)
    -- bounds for the candidate and for the current point
    have hc1lo : 0 ≤ np.1 + s.1 := by
      have : min s.1 0 ≤ s.1 := min_le_left _ _
      omega
    have hc1hi : np.1 + s.1 < gw := by
      have : s.1 ≤ max s.1 0 := le_max_left _ _
      omega
    have hc2lo : 0 ≤ np.2 + s.2 := by
      have : min s.2 0 ≤ s.2 := min_le_left _ _
      omega
    have hc2hi : np.2 + s.2 < gw := by
      have : s.2 ≤ max s.2 0 := le_max_left _ _
      omega
    have hn1lo : 0 ≤ np.1 := by
      have : min s.1 0 ≤ 0 := min_le_right _ _
      omega
    have hn1hi : np.1 < gw := by
      have : 0 ≤ max s.1 0 := le_max_right _ _
      omega
    have hn2lo : 0 ≤ np.2 := by
      have : min s.2 0 ≤ 0 := min_le_right _ _
      omega
    have hn2hi : np.2 < gw := by
      have : 0 ≤ max s.2 0 := le_max_right _ _
      omega
    -- invariants for the three possible accepted points
    have hrest_cand : 0 ≤ np.1 + s.1 + sumNeg (rest.map Prod.fst) ∧
        np.1 + s.1 + sumPos (rest.map Prod.fst) < gw := by
      have h1 : min s.1 0 ≤ s.1 := min_le_left _ _
      have h2 : s.1 ≤ max s.1 0 := le_max_left _ _
      omega
    have hrest_keep : 0 ≤ np.1 + sumNeg (rest.map Prod.fst) ∧
        np.1 + sumPos (rest.map Prod.fst) < gw := by
      have h1 : min s.1 0 ≤ 0 := min_le_right _ _
      have h2 : 0 ≤ max s.1 0 := le_max_right _ _
      omega
    have hrest_cand2 : 0 ≤ np.2 + s.2 + sumNeg (rest.map Prod.snd) ∧
        np.2 + s.2 + sumPos (rest.map Prod.snd) < gw := by
      have h1 : min s.2 0 ≤ s.2 := min_le_left _ _
      have h2 : s.2 ≤ max s.2 0 := le_max_left _ _
      omega
    have hrest_keep2 : 0 ≤ np.2 + sumNeg (rest.map Prod.snd) ∧
        np.2 + sumPos (rest.map Prod.snd) < gw := by
      have h1 : min s.2 0 ≤ 0 := min_le_right _ _
      have h2 : 0 ≤ max s.2 0 := le_max_right _ _
      omega
    -- in-range lookup helper
    have hlook : ∀ x y : Int, 0 ≤ x → x < gw → 0 ≤ y → y < gw →
        ∃ c, g.grid.get? (usizeCast y * gw + usizeCast x) = some c ∧
          usizeCast y * gw + usizeCast x < gw * gw := by
      intro x y hx0 hx1 hy0 hy1
      rw [usizeCast_of_range x gw hgw hx0 hx1, usizeCast_of_range y gw hgw hy0 hy1]
      have hidx : y.toNat * gw + x.toNat < gw * gw :=
        flatIndex_lt gw x.toNat y.toNat (by omega) (by omega)
      have hlen : y.toNat * gw + x.toNat < g.grid.length := by rw [hWF]; exact hidx
      exact ⟨g.grid.get ⟨_, hlen⟩, List.get?_eq_get hlen, hidx⟩
    obtain ⟨c, hc, hcidx⟩ := hlook (np.1 + s.1) (np.2 + s.2) hc1lo hc1hi hc2lo hc2hi
    simp only [physicsWalk, hc]
    by_cases hsolid : c.cell_type.is_solid
    · rw [if_pos hsolid]
      by_cases haxis : s.1 = 0 ∨ s.2 = 0
      · rw [if_pos haxis]
        exact ⟨npos, rfl, hpos⟩
      · rw [if_neg haxis]
        obtain ⟨c1, hc1, hc1idx⟩ := hlook (np.1 + s.1) np.2 hc1lo hc1hi hn2lo hn2hi
        simp only [hc1]
        by_cases hsolid1 : c1.cell_type.is_solid
        · rw [if_pos hsolid1]
          obtain ⟨c2, hc2, hc2idx⟩ := hlook np.1 (np.2 + s.2) hn1lo hn1hi hc2lo hc2hi
          simp only [hc2]
          by_cases hsolid2 : c2.cell_type.is_solid
          · rw [if_pos hsolid2]
            exact ⟨npos, rfl, hpos⟩
          · rw [if_neg hsolid2]
            exact ih (np.1, np.2 + s.2) _ hc2idx hrest_keep.1 hrest_keep.2
              hrest_cand2.1 hrest_cand2.2
        · rw [if_neg hsolid1]
          exact ih (np.1 + s.1, np.2) _ hc1idx hrest_cand.1 hrest_cand.2
            hrest_keep2.1 hrest_keep2.2
    · rw [if_neg hsolid]
      exact ih (np.1 + s.1, np.2 + s.2) _ hcidx hrest_cand.1 hrest_cand.2
        hrest_cand2.1 hrest_cand2.2

/-- Totality of the walk along a rasterized segment between two in-range
grid points. -/
theorem physics_core (gw : Nat) (g : Grid) (hgw : (gw : Int) ≤ 2 ^ 64)
    (hWF : g.grid.length = gw * gw) (a b : Nat × Nat)
    (ha1 : a.1 < gw) (ha2 : a.2 < gw) (hb1 : b.1 < gw) (hb2 : b.2 < gw)
    (npos : Nat) (hnpos : npos < gw * gw) :
    ∃ r, physicsWalk gw g (line_to_steps (generate_line a b))
      ((a.1 : Int), (a.2 : Int)) npos = some r ∧ r < gw * gw := by
  obtain ⟨hhead, hlast, hchain, _⟩ := generate_line_spec a b
  have hmem := line_to_steps_of_chain (generate_line a b) hchain
  have hsum1 := line_to_steps_sum_fst (generate_line a b) _ _ hhead hlast
  have hsum2 := line_to_steps_sum_snd (generate_line a b) _ _ hhead hlast
  have hmap1 : ∀ z ∈ (line_to_steps (generate_line a b)).map Prod.fst,
      z = 0 ∨ z = lineSx a b := by
    intro z hz
    obtain ⟨s, hs, hsz⟩ := List.mem_map.mp hz
    obtain ⟨p, q, hR, hspq⟩ := hmem s hs
    subst hsz; subst hspq
    exact hR.1
  have hmap2 : ∀ z ∈ (line_to_steps (generate_line a b)).map Prod.snd,
      z = 0 ∨ z = lineSy a b := by
    intro z hz
    obtain ⟨s, hs, hsz⟩ := List.mem_map.mp hz
    obtain ⟨p, q, hR, hspq⟩ := hmem s hs
    subst hsz; subst hspq
    exact hR.2
  simp only [Prod.fst, Prod.snd] at hsum1 hsum2
  have hx : 0 ≤ (a.1 : Int) + sumNeg ((line_to_steps (generate_line a b)).map Prod.fst) ∧
      (a.1 : Int) + sumPos ((line_to_steps (generate_line a b)).map Prod.fst) < gw := by
    rcases lineSx_unit a b with h | h
    · obtain ⟨hn, hp⟩ := sumNeg_sumPos_of_nonneg _
        (fun z hz => by rcases hmap1 z hz with h0 | h0 <;> omega)
      rw [hn, hp]
      rw [hsum1]
      constructor <;> omega
    · obtain ⟨hp, hn⟩ := sumNeg_sumPos_of_nonpos _
        (fun z hz => by rcases hmap1 z hz with h0 | h0 <;> omega)
      rw [hn, hp]
      rw [hsum1]
      constructor <;> omega
  have hy : 0 ≤ (a.2 : Int) + sumNeg ((line_to_steps (generate_line a b)).map Prod.snd) ∧
      (a.2 : Int) + sumPos ((line_to_steps (generate_line a b)).map Prod.snd) < gw := by
    rcases lineSy_unit a b with h | h
    · obtain ⟨hn, hp⟩ := sumNeg_sumPos_of_nonneg _
        (fun z hz => by rcases hmap2 z hz with h0 | h0 <;> omega)
      rw [hn, hp]
      rw [hsum2]
      constructor <;> omega
    · obtain ⟨hp, hn⟩ := sumNeg_sumPos_of_nonpos _
        (fun z hz => by rcases hmap2 z hz with h0 | h0 <;> omega)
      rw [hn, hp]
      rw [hsum2]
      constructor <;> omega
  exact physicsWalk_total gw g hgw hWF _ ((a.1 : Int), (a.2 : Int)) npos hnpos
    hx.1 hx.2 hy.1 hy.2

/-- Totality and range of `Cell::physics`: from an in-range position on a
well-formed grid, the movement resolver never reads out of bounds and
returns an in-range index. -/
theorem physics_total (gw : Nat) (g : Grid) (c : Cell) (pos : Nat)
    (hgw0 : 0 < gw) (hgw : (gw : Int) ≤ 2 ^ 64)
    (hWF : g.grid.length = gw * gw) (hpos : pos < gw * gw) :
    ∃ r, Cell.physics gw g c pos = some r ∧ r < gw * gw := by
  have hx : pos % gw < gw := Nat.mod_lt _ hgw0
  have hy : pos / gw < gw := (Nat.div_lt_iff_lt_mul hgw0).mpr hpos
  have hclamp : ∀ z : Int,
      (if (if z < 0 then (0 : Int) else z) ≥ (gw : Int) then (gw : Int) - 1
       else (if z < 0 then (0 : Int) else z)).toNat < gw := by
    intro z
    split_ifs <;> omega
  simp only [Cell.physics]
  exact physics_core gw g hgw hWF (pos % gw, pos / gw) (_, _) hx hy
    (hclamp _) (hclamp _) pos hpos

/-- A populated neighbor slot really is a grid read at its index. -/
theorem neighbourSlot_some (gw : Nat) (g : Grid) (pos : Nat) (i j : Int)
    (c : Cell) (h : (neighbourSlot gw g pos i j).2 = some c) :
    g.grid.get? (neighbourSlot gw g pos i j).1 = some c := by
  simp only [neighbourSlot] at h ⊢
  split_ifs at h ⊢ with h1 h2
  simpa using h

/-- Every movable-solid neighbor index denotes a cell present in the grid. -/
theorem movable_solid_neighbours_mem (gw : Nat) (g : Grid) (pos : Nat) :
    ∀ n ∈ movable_solid_neighbours gw g pos, ∃ c, g.grid.get? n = some c := by
  intro n hn
  unfold movable_solid_neighbours at hn
  obtain ⟨pn, hpn, hfst⟩ := List.mem_map.mp hn
  obtain ⟨hpnmem, hany⟩ := List.mem_filter.mp hpn
  obtain ⟨c, hc2⟩ : ∃ c, pn.2 = some c := by
    cases hx : pn.2 with
    | none => rw [hx] at hany; simp [Option.any] at hany
    | some c0 => exact ⟨c0, rfl⟩
  subst hfst
  have hslot : ∀ i j : Int, pn = neighbourSlot gw g pos i j →
      ∃ c0, g.grid.get? pn.1 = some c0 := by
    intro i j hij
    refine ⟨c, ?_⟩
    rw [hij] at hc2 ⊢
    exact neighbourSlot_some gw g pos i j c hc2
  simp only [get_neighbours, List.mem_cons, List.not_mem_nil, or_false] at hpnmem
  rcases hpnmem with h | h | h | h | h | h | h | h
  all_goals exact hslot _ _ h

/-- Totality and effect of the disturb loop: the position list is untouched
and every appended override carries an in-grid index and the value 8. -/
theorem disturbLoop_spec (rng : RngStream) (g : Grid) :
    ∀ (l : List Nat) (ch : Changes) (k : Nat),
      (∀ n ∈ l, ∃ c, g.grid.get? n = some c) →
      ∃ ch' k', disturbLoop rng g l ch k = some (ch', k') ∧
        ch'.pos = ch.pos ∧
        ∀ en ∈ ch'.free_falling,
          en ∈ ch.free_falling ∨ (en.1 < g.grid.length ∧ en.2 = 8) := by
  intro l
  induction l with
  | nil =>
    intro ch k _
    exact ⟨ch, k, rfl, rfl, fun en hen => Or.inl hen⟩
  | cons n rest ih =>
    intro ch k hmem
    obtain ⟨c, hc⟩ := hmem n (List.mem_cons_self _ _)
    have hidx : n < g.grid.length := List.get?_eq_some.mp hc |>.1
    simp only [disturbLoop, hc]
    by_cases hb : decide (rng k < 1 - c.cell_type.get_inertial_resistance) = true
    · rw [if_pos hb]
      obtain ⟨ch', k', heq, hpos, hff⟩ :=
        ih { ch with free_falling := ch.free_falling ++ [(n, 8)] } (k + 1)
          (fun m hm => hmem m (List.mem_cons_of_mem _ hm))
      refine ⟨ch', k', heq, hpos, fun en hen => ?_⟩
      rcases hff en hen with h | h
      · simp only [List.mem_append, List.mem_singleton] at h
        rcases h with h | h
        · exact Or.inl h
        · subst h
          exact Or.inr ⟨hidx, rfl⟩
      · exact Or.inr h
    · rw [if_neg hb]
      obtain ⟨ch', k', heq, hpos, hff⟩ :=
        ih ch (k + 1) (fun m hm => hmem m (List.mem_cons_of_mem _ hm))
      exact ⟨ch', k', heq, hpos, hff⟩

/-- The validation stage only touches the free-fall counter, and resolves
the marker 8 to at most 4. -/
theorem msl_validate_spec (self : Cell) (nbs : List (Nat × Option Cell)) :
    (msl_validate self nbs).cell_type = self.cell_type ∧
    (msl_validate self nbs).pos = self.pos ∧
    (msl_validate self nbs).velocity = self.velocity ∧
    (msl_validate self nbs).grounded = self.grounded ∧
    (msl_validate self nbs).color = self.color ∧
    (self.free_falling = 8 → (msl_validate self nbs).free_falling ≤ 4) ∧
    (self.free_falling ≠ 8 →
      (msl_validate self nbs).free_falling = self.free_falling) := by
  simp only [msl_validate]
  split_ifs with h1 h2 <;> simp_all

/-- The drag stage only touches the velocity. -/
theorem msl_drag_spec (self : Cell) :
    (msl_drag self).cell_type = self.cell_type ∧
    (msl_drag self).pos = self.pos ∧
    (msl_drag self).free_falling = self.free_falling ∧
    (msl_drag self).grounded = self.grounded ∧
    (msl_drag self).color = self.color := by
  simp only [msl_drag]
  split_ifs <;> simp

/-- The just-landed branch only touches the velocity. -/
theorem msl_just_landed_spec (rng : RngStream) (self : Cell)
    (nbs : List (Nat × Option Cell)) (k : Nat) :
    (msl_just_landed rng self nbs k).1.cell_type = self.cell_type ∧
    (msl_just_landed rng self nbs k).1.pos = self.pos ∧
    (msl_just_landed rng self nbs k).1.free_falling = self.free_falling ∧
    (msl_just_landed rng self nbs k).1.color = self.color := by
  simp only [msl_just_landed]
  split_ifs <;> simp

/-- The rolling branch touches only the velocity and possibly freezes the
free-fall counter at 4. -/
theorem msl_rolling_spec (rng : RngStream) (self : Cell)
    (nbs : List (Nat × Option Cell)) (k : Nat) :
    (msl_rolling rng self nbs k).1.cell_type = self.cell_type ∧
    (msl_rolling rng self nbs k).1.pos = self.pos ∧
    ((msl_rolling rng self nbs k).1.free_falling = self.free_falling ∨
      (msl_rolling rng self nbs k).1.free_falling = 4) ∧
    (msl_rolling rng self nbs k).1.color = self.color := by
  simp only [msl_rolling]
  split_ifs <;> simp

/-- The rest-increment tail preserves material, recorded index and color,
and keeps the counter at most 4 when it entered at most 4. -/
theorem msl_rest_increment_spec (self : Cell) (pos : Nat) :
    (msl_rest_increment self pos).cell_type = self.cell_type ∧
    (msl_rest_increment self pos).pos = self.pos ∧
    (msl_rest_increment self pos).color = self.color ∧
    (self.free_falling ≤ 4 → (msl_rest_increment self pos).free_falling ≤ 4) := by
  simp only [msl_rest_increment]
  split_ifs <;> simp <;> omega

/-- The motion stage preserves material, recorded index and color, and
keeps the free-fall counter at most 4 when it entered at most 4. -/
theorem msl_motion_spec (rng : RngStream) (self : Cell) (pos : Nat)
    (grounded : Bool) (nbs : List (Nat × Option Cell)) (k : Nat) :
    (msl_motion rng self pos grounded nbs k).1.cell_type = self.cell_type ∧
    (msl_motion rng self pos grounded nbs k).1.pos = self.pos ∧
    (msl_motion rng self pos grounded nbs k).1.color = self.color ∧
    (self.free_falling ≤ 4 →
      (msl_motion rng self pos grounded nbs k).1.free_falling ≤ 4) := by
  unfold msl_motion
  by_cases hg : !grounded
  · rw [if_pos hg]
    simp
  · rw [if_neg hg]
    by_cases hjl : !self.grounded
    · rw [if_pos hjl]
      obtain ⟨e1, e2, e3, e4⟩ := msl_just_landed_spec rng self nbs k
      obtain ⟨f1, f2, f3, f4⟩ := msl_rest_increment_spec (msl_just_landed rng self nbs k).1 pos
      refine ⟨by rw [f1, e1], by rw [f2, e2], by rw [f3, e4], fun hff => f4 ?_⟩
      rw [e3]; exact hff
    · rw [if_neg hjl]
      by_cases hr : self.free_falling < 4
      · rw [if_pos hr]
        obtain ⟨e1, e2, e3, e4⟩ := msl_rolling_spec rng self nbs k
        obtain ⟨f1, f2, f3, f4⟩ := msl_rest_increment_spec (msl_rolling rng self nbs k).1 pos
        refine ⟨by rw [f1, e1], by rw [f2, e2], by rw [f3, e4], fun hff => f4 ?_⟩
        rcases e3 with h | h <;> omega
      · rw [if_neg hr]
        obtain ⟨f1, f2, f3, f4⟩ := msl_rest_increment_spec self pos
        exact ⟨f1, f2, f3, f4⟩

/-- Stage 1 always succeeds, leaves the swap list alone, and appends only
in-grid overrides with value 8. -/
theorem msl_stageA_spec (gw : Nat) (rng : RngStream) (g : Grid) (self : Cell)
    (pos : Nat) (ch : Changes) (k : Nat) :
    ∃ nbs ch1 k1, msl_stageA gw rng g self pos ch k = some (nbs, ch1, k1) ∧
      ch1.pos = ch.pos ∧
      (∀ en ∈ ch1.free_falling,
        en ∈ ch.free_falling ∨ (en.1 < g.grid.length ∧ en.2 = 8)) ∧
      (nbs.getD 6 (0, none) = neighbourSlot gw g pos 1 0 ∨
        nbs.getD 6 (0, none) = get_neighbour gw g pos (0, 1)) := by
  unfold msl_stageA
  by_cases h1 : self.free_falling < 4
  · rw [if_pos h1]
    by_cases h2 : (movable_solid_neighbours gw g pos).length < 5
    · rw [if_pos h2]
      obtain ⟨ch', k', heq, hpos, hff⟩ :=
        disturbLoop_spec rng g (movable_solid_neighbours gw g pos) ch k
          (movable_solid_neighbours_mem gw g pos)
      rw [heq]
      exact ⟨_, ch', k', rfl, hpos, hff, Or.inl rfl⟩
    · rw [if_neg h2]
      exact ⟨_, ch, k, rfl, rfl, fun en hen => Or.inl hen, Or.inl rfl⟩
  · rw [if_neg h1]
    by_cases h2 : self.free_falling = 8
    · rw [if_pos h2]
      exact ⟨_, ch, k, rfl, rfl, fun en hen => Or.inl hen, Or.inr rfl⟩
    · rw [if_neg h2]
      exact ⟨_, ch, k, rfl, rfl, fun en hen => Or.inl hen, Or.inr rfl⟩

/-- The force model always succeeds; it preserves the material, the recorded
index and the color of the cell, never touches the swap list, appends only
in-grid overrides with value 8, and leaves the counter at most 4 whenever it
entered within the invariant range. -/
theorem movable_solid_logic_spec (gw : Nat) (rng : RngStream) (g : Grid)
    (self : Cell) (pos : Nat) (ch : Changes) (k : Nat) :
    ∃ c' ch' k',
      Cell.movable_solid_logic gw rng g self pos ch k = some (c', ch', k') ∧
      c'.cell_type = self.cell_type ∧
      c'.pos = self.pos ∧
      c'.color = self.color ∧
      ch'.pos = ch.pos ∧
      (∀ en ∈ ch'.free_falling,
        en ∈ ch.free_falling ∨ (en.1 < g.grid.length ∧ en.2 = 8)) ∧
      (self.free_falling ≤ 4 ∨ self.free_falling = 8 → c'.free_falling ≤ 4) := by
  obtain ⟨nbs, ch1, k1, hA, hApos, hAff, -⟩ :=
    msl_stageA_spec gw rng g self pos ch k
  obtain ⟨v1, v2, v3, v4, v5, v6, v7⟩ := msl_validate_spec self nbs
  obtain ⟨d1, d2, d3, d4, d5⟩ := msl_drag_spec (msl_validate self nbs)
  obtain ⟨m1, m2, m3, m4⟩ := msl_motion_spec rng (msl_drag (msl_validate self nbs))
    pos (msl_grounded nbs) nbs k1
  refine ⟨{ (msl_motion rng (msl_drag (msl_validate self nbs)) pos
      (msl_grounded nbs) nbs k1).1 with grounded := msl_grounded nbs },
    ch1,
    (msl_motion rng (msl_drag (msl_validate self nbs)) pos
      (msl_grounded nbs) nbs k1).2,
    ?_, ?_, ?_, ?_, hApos, hAff, ?_⟩
  · simp only [Cell.movable_solid_logic, hA]
  · simpa using m1.trans (d1.trans v1)
  · simpa using m2.trans (d2.trans v2)
  · simpa using m3.trans (d5.trans v5)
  · intro hinv
    have hval : (msl_validate self nbs).free_falling ≤ 4 := by
      rcases hinv with h | h
      · by_cases h8 : self.free_falling = 8
        · omega
        · rw [v7 h8]; exact h
      · exact v6 h
    have hdrag : (msl_drag (msl_validate self nbs)).free_falling ≤ 4 := by
      rw [d3]; exact hval
    simpa using m4 hdrag

/-- A cell that counts five or more movable-solid neighbors leaves the change
buffer exactly as it found it: no disturb signal is emitted. -/
theorem msl_no_disturb (gw : Nat) (rng : RngStream) (g : Grid) (self : Cell)
    (pos : Nat) (ch : Changes) (k : Nat) (c' : Cell) (ch' : Changes) (k' : Nat)
    (hcount : 5 ≤ (movable_solid_neighbours gw g pos).length)
    (h : Cell.movable_solid_logic gw rng g self pos ch k = some (c', ch', k')) :
    ch' = ch := by
  have hA : ∃ nbs k1, msl_stageA gw rng g self pos ch k = some (nbs, ch, k1) := by
    unfold msl_stageA
    by_cases h1 : self.free_falling < 4
    · rw [if_pos h1, if_neg (by omega)]
      exact ⟨_, k, rfl⟩
    · rw [if_neg h1]
      by_cases h2 : self.free_falling = 8
      · rw [if_pos h2]; exact ⟨_, k, rfl⟩
      · rw [if_neg h2]; exact ⟨_, k, rfl⟩
  obtain ⟨nbs, k1, hA⟩ := hA
  simp only [Cell.movable_solid_logic, hA, Option.some.injEq, Prod.mk.injEq] at h
  obtain ⟨-, h2, -⟩ := h
  exact h2.symm

/-- On an in-range position the bottom slot of the full neighbor scan agrees
with the single bottom-neighbor read. -/
theorem neighbourSlot_bottom (gw : Nat) (g : Grid) (pos : Nat)
    (hgw0 : 0 < gw) :
    neighbourSlot gw g pos 1 0 = get_neighbour gw g pos (0, 1) := by
  simp only [neighbourSlot, get_neighbour, GRID_SIZE]
  obtain ⟨q, hq⟩ : ∃ q, pos / gw = q := ⟨_, rfl⟩
  obtain ⟨r, hrr⟩ : ∃ r, pos % gw = r := ⟨_, rfl⟩
  have hdm : gw * q + r = pos := by rw [← hq, ← hrr]; exact Nat.div_add_mod pos gw
  have hr0 : r < gw := by rw [← hrr]; exact Nat.mod_lt _ hgw0
  rw [hq, hrr]
  have hkey : (q + 1) * gw + r = pos + gw := by
    calc (q + 1) * gw + r = gw * q + r + gw := by ring
      _ = pos + gw := by rw [hdm]
  have hiff : pos + gw < gw * gw ↔ q + 1 < gw := by
    constructor
    · intro hbelow
      by_contra hcon
      push_neg at hcon
      have h1 : gw * gw ≤ gw * (q + 1) := Nat.mul_le_mul_left _ hcon
      have h2 : gw * (q + 1) = gw * q + gw := by ring
      omega
    · intro hq1
      have h1 : gw * (q + 1 + 1) ≤ gw * gw := Nat.mul_le_mul_left _ (by omega)
      have h2 : gw * (q + 1 + 1) = gw * q + gw + gw := by ring
      omega
  by_cases hbelow : pos + gw < gw * gw
  · have hq1 : q + 1 < gw := hiff.mp hbelow
    rw [if_neg (by omega),
      if_neg (by
        rintro (hc | hc | hc)
        · exact hc (by rw [add_zero])
        · omega
        · omega),
      if_neg (by omega)]
    have e1 : ((pos : Int) + 1 * (gw : Int) + 0) = ((pos + gw : Nat) : Int) := by
      push_cast; ring
    have e2 : (((q : Nat) : Int) + 1) = ((q + 1 : Nat) : Int) := by
      push_cast; ring
    have e3 : (((r : Nat) : Int) + 0) = ((r : Nat) : Int) := by
      ring
    rw [e1, e2, e3, Int.toNat_natCast, Int.toNat_natCast, Int.toNat_natCast, hkey]
  · have hq1 : ¬ q + 1 < gw := fun hc => hbelow (hiff.mpr hc)
    rw [if_pos (by omega), if_pos (by omega)]

/-- The grounded flag stored by the force model is exactly: the bottom
neighbor is absent, or present and not air. -/
theorem msl_grounded_eq (gw : Nat) (rng : RngStream) (g : Grid) (self : Cell)
    (pos : Nat) (ch : Changes) (k : Nat) (c' : Cell) (ch' : Changes) (k' : Nat)
    (hgw0 : 0 < gw)
    (h : Cell.movable_solid_logic gw rng g self pos ch k = some (c', ch', k')) :
    c'.grounded = (get_neighbour gw g pos (0, 1)).2.all
      (fun nc => !(decide (nc.cell_type = CellType.Air))) := by
  obtain ⟨nbs, ch1, k1, hA, -, -, hslot6⟩ := msl_stageA_spec gw rng g self pos ch k
  simp only [Cell.movable_solid_logic, hA, Option.some.injEq, Prod.mk.injEq] at h
  obtain ⟨h1, -, -⟩ := h
  rw [← h1]
  have hg : msl_grounded nbs = (get_neighbour gw g pos (0, 1)).2.all
      (fun nc => !(decide (nc.cell_type = CellType.Air))) := by
    unfold msl_grounded
    rcases hslot6 with h6 | h6
    · rw [h6, neighbourSlot_bottom gw g pos hgw0]
    · rw [h6]
  simpa using hg

/-- The shared movable body always succeeds on a well-formed grid, preserves
the material of the cell, enqueues only in-range swaps and overrides, and
keeps the free-fall counter inside the invariant range. -/
theorem logicMovable_spec (gw : Nat) (rng : RngStream) (g : Grid) (self : Cell)
    (pos : Nat) (ch : Changes) (k : Nat) (hgw0 : 0 < gw)
    (hgw : (gw : Int) ≤ 2 ^ 64) (hWF : g.grid.length = gw * gw)
    (hpos : pos < gw * gw) :
    ∃ c' ch' k', logicMovable gw rng g self pos ch k = some (c', ch', k') ∧
      c'.cell_type = self.cell_type ∧
      (∀ en ∈ ch'.pos, en ∈ ch.pos ∨ (en.1 < gw * gw ∧ en.2 < gw * gw)) ∧
      (∀ en ∈ ch'.free_falling,
        en ∈ ch.free_falling ∨ (en.1 < gw * gw ∧ en.2 = 8)) ∧
      (self.free_falling ≤ 4 ∨ self.free_falling = 8 → c'.free_falling ≤ 4) := by
  obtain ⟨c1, ch1, k1, hmsl, hct, hcp, hcc, hchpos, hchff, hff⟩ :=
    movable_solid_logic_spec gw rng g self pos ch k
  rw [hWF] at hchff
  obtain ⟨new_pos, hphys, hnew⟩ :
      ∃ r, (if c1.velocity.1 ≠ 0 ∨ c1.free_falling < 4 then
        Cell.physics gw g c1 pos else some pos) = some r ∧ r < gw * gw := by
    by_cases hrun : c1.velocity.1 ≠ 0 ∨ c1.free_falling < 4
    · rw [if_pos hrun]
      exact physics_total gw g c1 pos hgw0 hgw hWF hpos
    · rw [if_neg hrun]
      exact ⟨pos, rfl, hpos⟩
  refine ⟨{ c1 with pos := pos },
    (if pos ≠ new_pos then { ch1 with pos := ch1.pos ++ [(pos, new_pos)] } else ch1),
    k1, ?_, by simpa using hct, ?_, ?_, ?_⟩
  · simp only [logicMovable, hmsl, hphys]
  · intro en hen
    by_cases hne : pos ≠ new_pos
    · rw [if_pos hne] at hen
      simp only [List.mem_append, List.mem_singleton] at hen
      rcases hen with hen | hen
      · rw [hchpos] at hen
        exact Or.inl hen
      · subst hen
        exact Or.inr ⟨hpos, hnew⟩
    · rw [if_neg hne] at hen
      rw [hchpos] at hen
      exact Or.inl hen
  · intro en hen
    by_cases hne : pos ≠ new_pos
    · rw [if_pos hne] at hen
      exact hchff en hen
    · rw [if_neg hne] at hen
      exact hchff en hen
  · intro hinv
    simpa using hff hinv

/-- Setting a slot to a cell of the same material leaves the material map
unchanged. -/
theorem map_set_same_type :
    ∀ (l : List Cell) (i : Nat) (c c' : Cell), l.get? i = some c →
      c'.cell_type = c.cell_type →
      (l.set i c').map Cell.cell_type = l.map Cell.cell_type := by
  intro l
  induction l with
  | nil => intro i c c' h _; simp at h
  | cons x t ih =>
    intro i c c' h hty
    cases i with
    | zero =>
      simp only [List.get?] at h
      obtain rfl : x = c := by simpa using h
      simp [hty]
    | succ m =>
      simp only [List.get?] at h
      simp [ih m c c' h hty]

/-- Replacing a slot by the element it holds is the identity. -/
theorem set_get_self :
    ∀ (l : List Cell) (i : Nat) (c : Cell), l.get? i = some c → l.set i c = l := by
  intro l
  induction l with
  | nil => intro i c h; simp at h
  | cons x t ih =>
    intro i c h
    cases i with
    | zero =>
      simp only [List.get?] at h
      obtain rfl : x = c := by simpa using h
      simp
    | succ m =>
      simp only [List.get?] at h
      simp [ih m c h]

/-- Moving an element of the list to the front of a set is a permutation. -/
theorem cons_set_perm :
    ∀ (l : List Cell) (m : Nat) (b' b : Cell), l.get? m = some b →
      List.Perm (b :: l.set m b') (b' :: l) := by
  intro l
  induction l with
  | nil => intro m b' b h; simp at h
  | cons x t ih =>
    intro m b' b h
    cases m with
    | zero =>
      simp only [List.get?] at h
      obtain rfl : x = b := by simpa using h
      simpa using List.Perm.swap _ _ _
    | succ m =>
      simp only [List.get?] at h
      simp only [List.set]
      exact (List.Perm.swap x b _).trans
        ((List.Perm.cons x (ih m b' b h)).trans (List.Perm.swap b' x t))

/-- A two-slot exchange permutes the list. -/
theorem set_set_perm :
    ∀ (l : List Cell) (i j : Nat) (a b : Cell),
      l.get? i = some a → l.get? j = some b →
      List.Perm ((l.set i b).set j a) l := by
  intro l
  induction l with
  | nil => intro i j a b h _; simp at h
  | cons x t ih =>
    intro i j a b ha hb
    cases i with
    | zero =>
      simp only [List.get?] at ha
      obtain rfl : x = a := by simpa using ha
      cases j with
      | zero =>
        simp only [List.get?] at hb
        obtain rfl : x = b := by simpa using hb
        simp
      | succ m =>
        simp only [List.get?] at hb
        simpa using cons_set_perm t m x b hb
    | succ m =>
      simp only [List.get?] at ha
      cases j with
      | zero =>
        simp only [List.get?] at hb
        obtain rfl : x = b := by simpa using hb
        simpa using cons_set_perm t m x a ha
      | succ n =>
        simp only [List.get?] at hb
        simpa using List.Perm.cons x (ih m n a b ha hb)

/-- The per-cell logic always succeeds on a well-formed grid, preserves the
material of the cell, enqueues only in-range changes, and keeps the
free-fall counter inside the invariant range. -/
theorem logic_spec (gw : Nat) (rng : RngStream) (g : Grid) (self : Cell)
    (pos : Nat) (ch : Changes) (k : Nat) (hgw0 : 0 < gw)
    (hgw : (gw : Int) ≤ 2 ^ 64) (hWF : g.grid.length = gw * gw)
    (hpos : pos < gw * gw) :
    ∃ c' ch' k', Cell.logic gw rng g self pos ch k = some (c', ch', k') ∧
      c'.cell_type = self.cell_type ∧
      (∀ en ∈ ch'.pos, en ∈ ch.pos ∨ (en.1 < gw * gw ∧ en.2 < gw * gw)) ∧
      (∀ en ∈ ch'.free_falling,
        en ∈ ch.free_falling ∨ (en.1 < gw * gw ∧ en.2 = 8)) ∧
      (self.free_falling ≤ 4 ∨ self.free_falling = 8 →
        c'.free_falling ≤ 4 ∨ c'.free_falling = 8) := by
  cases hct : self.cell_type
  case Sand =>
    obtain ⟨c', ch', k', heq, h1, h2, h3, h4⟩ :=
      logicMovable_spec gw rng g self pos ch k hgw0 hgw hWF hpos
    exact ⟨c', ch', k', by simp [Cell.logic, hct, heq], h1.trans hct, h2, h3,
      fun hinv => Or.inl (h4 hinv)⟩
  case Dirt =>
    obtain ⟨c', ch', k', heq, h1, h2, h3, h4⟩ :=
      logicMovable_spec gw rng g self pos ch k hgw0 hgw hWF hpos
    exact ⟨c', ch', k', by simp [Cell.logic, hct, heq], h1.trans hct, h2, h3,
      fun hinv => Or.inl (h4 hinv)⟩
  all_goals
    exact ⟨self, ch, k, by simp [Cell.logic, hct], hct, fun en hen => Or.inl hen,
      fun en hen => Or.inl hen, fun hinv => hinv⟩

/-- The scan loop over in-range indices always succeeds; it keeps the grid
well-formed, preserves the material at every slot, enqueues only in-range
changes, and preserves the free-fall invariant. -/
theorem scanLoop_spec (gw : Nat) (rng : RngStream) (hgw0 : 0 < gw)
    (hgw : (gw : Int) ≤ 2 ^ 64) :
    ∀ (l : List Nat) (g : Grid) (ch : Changes) (k : Nat),
      g.grid.length = gw * gw → (∀ i ∈ l, i < gw * gw) →
      ∃ g' ch' k', scanLoop gw rng l g ch k = some (g', ch', k') ∧
        g'.grid.length = gw * gw ∧
        g'.grid.map Cell.cell_type = g.grid.map Cell.cell_type ∧
        (∀ en ∈ ch'.pos, en ∈ ch.pos ∨ (en.1 < gw * gw ∧ en.2 < gw * gw)) ∧
        (∀ en ∈ ch'.free_falling,
          en ∈ ch.free_falling ∨ (en.1 < gw * gw ∧ en.2 = 8)) ∧
        (FreeFallInv g → FreeFallInv g') := by
  intro l
  induction l with
  | nil =>
    intro g ch k hWF _
    exact ⟨g, ch, k, rfl, hWF, rfl, fun en hen => Or.inl hen,
      fun en hen => Or.inl hen, fun h => h⟩
  | cons i rest ih =>
    intro g ch k hWF hmem
    have hi : i < gw * gw := hmem i (List.mem_cons_self _ _)
    have hilen : i < g.grid.length := by omega
    obtain ⟨cell, hcell⟩ : ∃ c, g.grid.get? i = some c :=
      ⟨_, List.get?_eq_get hilen⟩
    obtain ⟨c', ch', k', hlogic, hct, hchpos, hchff, hffinv⟩ :=
      logic_spec gw rng g cell i ch k hgw0 hgw hWF hi
    have hstep : scanStep gw rng g i ch k = some (⟨g.grid.set i c'⟩, ch', k') := by
      simp only [scanStep, hcell, hlogic]
    have hWF' : (Grid.mk (g.grid.set i c')).grid.length = gw * gw := by
      simp [hWF]
    obtain ⟨g2, ch2, k2, hloop, hWF2, hmap2, hpos2, hff2, hinv2⟩ :=
      ih ⟨g.grid.set i c'⟩ ch' k' hWF' (fun m hm => hmem m (List.mem_cons_of_mem _ hm))
    refine ⟨g2, ch2, k2, ?_, hWF2, ?_, ?_, ?_, ?_⟩
    · simp only [scanLoop, hstep, hloop]
    · rw [hmap2]
      exact map_set_same_type g.grid i cell c' hcell hct
    · intro en hen
      rcases hpos2 en hen with h | h
      · exact hchpos en h
      · exact Or.inr h
    · intro en hen
      rcases hff2 en hen with h | h
      · exact hchff en h
      · exact Or.inr h
    · intro hinv
      refine hinv2 ?_
      intro c hc
      rcases List.mem_or_eq_of_mem_set hc with h | h
      · exact hinv c h
      · subst h
        have hcellmem : cell ∈ g.grid := List.get?_mem hcell
        rcases hffinv (hinv cell hcellmem) with h | h
        · exact Or.inl h
        · exact Or.inr h

/-- The swap phase succeeds on in-range swap pairs and permutes the grid. -/
theorem applySwaps_spec :
    ∀ (l : List (Nat × Nat)) (g : Grid),
      (∀ en ∈ l, en.1 < g.grid.length ∧ en.2 < g.grid.length) →
      ∃ g', applySwaps l g = some g' ∧ List.Perm g'.grid g.grid := by
  intro l
  induction l with
  | nil => intro g _; exact ⟨g, rfl, List.Perm.refl _⟩
  | cons p rest ih =>
    intro g hmem
    obtain ⟨h1, h2⟩ := hmem p (List.mem_cons_self _ _)
    obtain ⟨a, hga⟩ : ∃ c, g.grid.get? p.1 = some c := ⟨_, List.get?_eq_get h1⟩
    obtain ⟨b, hgb⟩ : ∃ c, g.grid.get? p.2 = some c := ⟨_, List.get?_eq_get h2⟩
    have hswap : swapCells g.grid p.1 p.2 = some ((g.grid.set p.1 b).set p.2 a) := by
      simp only [swapCells, hga, hgb]
    have hperm : List.Perm ((g.grid.set p.1 b).set p.2 a) g.grid :=
      set_set_perm g.grid p.1 p.2 a b hga hgb
    have hlen : ((g.grid.set p.1 b).set p.2 a).length = g.grid.length := by
      simp
    obtain ⟨g', heq, hperm'⟩ := ih ⟨(g.grid.set p.1 b).set p.2 a⟩
      (fun en hen => by
        obtain ⟨e1, e2⟩ := hmem en (List.mem_cons_of_mem _ hen)
        exact ⟨by simpa [hlen] using e1, by simpa [hlen] using e2⟩)
    refine ⟨g', ?_, hperm'.trans hperm⟩
    simp only [applySwaps, hswap, heq]

/-- The override phase succeeds on in-range indices, preserves the material
at every slot, and writes only the value 8 into the counters. -/
theorem applyOverrides_spec :
    ∀ (l : List (Nat × Nat)) (g : Grid),
      (∀ en ∈ l, en.1 < g.grid.length ∧ en.2 = 8) →
      ∃ g', applyOverrides l g = some g' ∧
        g'.grid.map Cell.cell_type = g.grid.map Cell.cell_type ∧
        (FreeFallInv g → FreeFallInv g') := by
  intro l
  induction l with
  | nil => intro g _; exact ⟨g, rfl, rfl, fun h => h⟩
  | cons p rest ih =>
    intro g hmem
    obtain ⟨h1, h2⟩ := hmem p (List.mem_cons_self _ _)
    obtain ⟨c, hgc⟩ : ∃ c0, g.grid.get? p.1 = some c0 := ⟨_, List.get?_eq_get h1⟩
    have hlen : (g.grid.set p.1 { c with free_falling := p.2 }).length = g.grid.length := by
      simp
    obtain ⟨g', heq, hmap, hinv⟩ := ih ⟨g.grid.set p.1 { c with free_falling := p.2 }⟩
      (fun en hen => by
        obtain ⟨e1, e2⟩ := hmem en (List.mem_cons_of_mem _ hen)
        exact ⟨by simpa [hlen] using e1, e2⟩)
    refine ⟨g', ?_, ?_, ?_⟩
    · simp only [applyOverrides, hgc, heq]
    · rw [hmap]
      exact map_set_same_type g.grid p.1 c _ hgc rfl
    · intro hfi
      refine hinv ?_
      intro c0 hc0
      rcases List.mem_or_eq_of_mem_set hc0 with h | h
      · exact hfi c0 h
      · subst h
        exact Or.inr h2

/-- One tick always succeeds on a well-formed grid; it keeps the grid
well-formed, preserves the multiset of materials, and preserves the
free-fall invariant. -/
theorem execute_logic_spec (gw : Nat) (rng : RngStream) (g : Grid) (k : Nat)
    (hgw0 : 0 < gw) (hgw : (gw : Int) ≤ 2 ^ 64) (hWF : Grid.Wellformed gw g) :
    ∃ g' k', Grid.execute_logic gw rng g k = some (g', k') ∧
      Grid.Wellformed gw g' ∧
      Multiset.ofList (g'.grid.map Cell.cell_type) =
        Multiset.ofList (g.grid.map Cell.cell_type) ∧
      (FreeFallInv g → FreeFallInv g') := by
  have hWFn : g.grid.length = gw * gw := hWF
  obtain ⟨g1, ch1, k1, hscan, hWF1, hmap1, hpos1, hff1, hinv1⟩ :=
    scanLoop_spec gw rng hgw0 hgw (List.range (GRID_SIZE gw)) g Changes.default k
      hWFn (fun i hi => by simpa [GRID_SIZE] using List.mem_range.mp hi)
  have hposb : ∀ en ∈ ch1.pos, en.1 < g1.grid.length ∧ en.2 < g1.grid.length := by
    intro en hen
    rcases hpos1 en hen with h | h
    · simp [Changes.default] at h
    · omega
  obtain ⟨g2, hswap, hperm⟩ := applySwaps_spec ch1.pos g1 hposb
  have hlen2 : g2.grid.length = gw * gw := by
    rw [hperm.length_eq]; exact hWF1
  have hffb : ∀ en ∈ ch1.free_falling, en.1 < g2.grid.length ∧ en.2 = 8 := by
    intro en hen
    rcases hff1 en hen with h | h
    · simp [Changes.default] at h
    · omega
  obtain ⟨g3, hover, hmap3, hinv3⟩ := applyOverrides_spec ch1.free_falling g2 hffb
  refine ⟨g3, k1, ?_, ?_, ?_, ?_⟩
  · simp only [Grid.execute_logic, hscan, hswap, hover]
  · have : g3.grid.length = g2.grid.length := by
      have := congrArg List.length hmap3
      simpa using this
    show g3.grid.length = GRID_SIZE gw
    rw [this]
    exact hlen2
  · rw [hmap3]
    calc (Multiset.ofList (g2.grid.map Cell.cell_type)) =
        Multiset.ofList (g1.grid.map Cell.cell_type) :=
          Multiset.coe_eq_coe.mpr (hperm.map _)
      _ = Multiset.ofList (g.grid.map Cell.cell_type) := by rw [hmap1]
  · intro hinv
    refine hinv3 ?_
    intro c hc
    exact hinv1 hinv c (hperm.mem_iff.mp hc)

/-- C3: for every pair of grid points the rasterizer returns an ordered
inclusive sequence that starts at the first point, terminates exactly at the
second regardless of octant, moves by at most one unit per axis at each
consecutive step, and maps identical endpoints to the single-point
sequence. -/
theorem C3_rasterizer_correct (pos1 pos2 : Nat × Nat) :
    (generate_line pos1 pos2).head? = some ((pos1.1 : Int), (pos1.2 : Int)) ∧
    (generate_line pos1 pos2).getLast? = some ((pos2.1 : Int), (pos2.2 : Int)) ∧
    List.Chain' (fun p q => (q.1 - p.1).natAbs ≤ 1 ∧ (q.2 - p.2).natAbs ≤ 1)
      (generate_line pos1 pos2) ∧
    generate_line pos1 pos1 = [((pos1.1 : Int), (pos1.2 : Int))] := by
  obtain ⟨h1, h2, h3, -⟩ := generate_line_spec pos1 pos2
  refine ⟨h1, h2, ?_, generate_line_same pos1⟩
  refine h3.imp ?_
  intro p q hpq
  obtain ⟨ha, hb⟩ := hpq
  constructor
  · rcases ha with h | h
    · simp [h]
    · rw [h]
      rcases lineSx_unit pos1 pos2 with hu | hu <;> simp [hu]
  · rcases hb with h | h
    · simp [h]
    · rw [h]
      rcases lineSy_unit pos1 pos2 with hu | hu <;> simp [hu]

/-- C2: on an in-bounds position, place never fails; it leaves the whole
grid unchanged when the target cell is not air, and writes a fresh cell of
the requested material when the target cell is air. -/
theorem C2_place_only_on_air (gw : Nat) (g : Grid) (pos : Nat) (M : CellType)
    (h : pos < g.grid.length) :
    (Grid.place gw g pos M).isSome ∧
    (∀ c, g.grid.get? pos = some c → c.cell_type ≠ CellType.Air →
      Grid.place gw g pos M = some g) ∧
    (∀ c, g.grid.get? pos = some c → c.cell_type = CellType.Air →
      Grid.place gw g pos M = some ⟨g.grid.set pos (Cell.new gw M)⟩) := by
  obtain ⟨c0, hc0⟩ : ∃ c, g.grid.get? pos = some c := ⟨_, List.get?_eq_get h⟩
  refine ⟨?_, ?_, ?_⟩
  · simp only [Grid.place, hc0]
    split_ifs <;> simp
  · intro c hc hne
    rw [hc0] at hc
    obtain rfl : c0 = c := by simpa using hc
    simp only [Grid.place, hc0]
    rw [if_neg hne]
  · intro c hc hair
    rw [hc0] at hc
    obtain rfl : c0 = c := by simpa using hc
    simp only [Grid.place, hc0]
    rw [if_pos hair]

/-- Witness for C2 at concrete inputs: placing dirt onto a sand cell is a
no-op, placing sand onto an air cell writes the fresh cell. -/
theorem C2_witness :
    Grid.place 1 gridOne 0 CellType.Dirt = some gridOne ∧
    Grid.place 2 airTwoGrid 0 CellType.Sand =
      some ⟨airTwoGrid.grid.set 0 (Cell.new 2 CellType.Sand)⟩ := by
  constructor
  · exact (C2_place_only_on_air 1 gridOne 0 CellType.Dirt (by decide)).2.1 cellOne
      (by with_unfolding_all rfl) (by decide)
  · exact (C2_place_only_on_air 2 airTwoGrid 0 CellType.Sand (by decide)).2.2
      (Cell.new 2 CellType.Air) (by with_unfolding_all rfl) rfl

/-- C7: a step of the movement resolver whose candidate cell is air accepts
the candidate as the new current point and continues the walk. -/
theorem C7_air_never_blocks (gw : Nat) (g : Grid) (s : Int × Int)
    (rest : List (Int × Int)) (np : Int × Int) (npos : Nat) (c : Cell)
    (hc : g.grid.get? (usizeCast (np.2 + s.2) * gw + usizeCast (np.1 + s.1)) =
      some c)
    (hair : c.cell_type = CellType.Air) :
    physicsWalk gw g (s :: rest) np npos =
      physicsWalk gw g rest (np.1 + s.1, np.2 + s.2)
        (usizeCast (np.2 + s.2) * gw + usizeCast (np.1 + s.1)) := by
  simp only [physicsWalk, hc]
  rw [if_neg (by simp [hair, CellType.is_solid])]

/-- Witness for C7 at a concrete input: the downward step onto an air cell
of the 2 x 2 air grid is accepted. -/
theorem C7_witness :
    physicsWalk 2 airTwoGrid [(0, 1)] (0, 0) 0 =
      physicsWalk 2 airTwoGrid [] ((0 : Int) + 0, (0 : Int) + 1)
        (usizeCast ((0 : Int) + 1) * 2 + usizeCast ((0 : Int) + 0)) :=
  C7_air_never_blocks 2 airTwoGrid (0, 1) [] (0, 0) 0 (Cell.new 2 CellType.Air)
    (by with_unfolding_all rfl) rfl

/-- C6: in the rolling branch with the diagonal-below sides not both free,
the freeze draw is compared against the cubed inertial resistance of sand,
hardcoded, not of the own material of the cell: a dirt cell at draw 1/50
rolls on (counter stays 0, it tips left at dirt roll speed), although 1/50
is below the cubed dirt inertial resistance, because 1/50 is not below the
cubed sand inertial resistance. -/
theorem C6_freeze_probability_uses_sand :
    (Cell.movable_solid_logic 3 rngFreeze dirtRingGrid dirtRollCell 4
      Changes.default 0).map (fun r => (r.1.free_falling, r.1.velocity.1)) =
      some (0, -(3/2 : Rat)) ∧
    (1 : Rat)/50 < CellType.get_inertial_resistance CellType.Dirt ^ 3 ∧
    ¬ (1 : Rat)/50 < CellType.get_inertial_resistance CellType.Sand ^ 3 := by
  refine ⟨?_, ?_, ?_⟩ <;> with_unfolding_all decide

/-- Counterexample to C5: on the 1 x 1 grid the bottom neighbor of the
single bottom-edge cell is absent, yet the force model marks the cell
grounded, contradicting "a cell whose bottom neighbor is absent is not
grounded". -/
theorem C5_counterexample :
    (get_neighbour 1 gridOne 0 (0, 1)).2 = none ∧
    (Cell.movable_solid_logic 1 rngZero gridOne cellOne 0 Changes.default 0).map
      (fun r => r.1.grounded) = some true := by
  constructor <;> with_unfolding_all decide

/-- C5 (amended): the grounded flag stored by the force model equals: the
bottom neighbor is absent, or present and not air; equivalently, the cell is
NOT grounded exactly when the bottom neighbor is present and is air, so an
absent bottom neighbor (bottom grid edge) yields grounded. -/
theorem C5_grounded_amended (gw : Nat) (rng : RngStream) (g : Grid)
    (self : Cell) (pos : Nat) (ch : Changes) (k : Nat) (c' : Cell)
    (ch' : Changes) (k' : Nat) (hgw0 : 0 < gw)
    (h : Cell.movable_solid_logic gw rng g self pos ch k = some (c', ch', k')) :
    c'.grounded = (get_neighbour gw g pos (0, 1)).2.all
      (fun nc => !(decide (nc.cell_type = CellType.Air))) :=
  msl_grounded_eq gw rng g self pos ch k c' ch' k' hgw0 h

/-- Witness for C5 (amended) at a concrete input: the bottom-edge cell of the
1 x 1 grid. -/
theorem C5_witness :
    cellOneResult.grounded = (get_neighbour 1 gridOne 0 (0, 1)).2.all
      (fun nc => !(decide (nc.cell_type = CellType.Air))) :=
  C5_grounded_amended 1 rngZero gridOne cellOne 0 Changes.default 0
    cellOneResult Changes.default 0 (by decide) (by with_unfolding_all rfl)

/-- Counterexample to C4: in the 5 x 5 sand-block grid, the cell at index 17
is fully enclosed by 8 movable-solid neighbors, yet at the end of the tick it
holds the disturb marker 8: it received a disturb signal from its
less-enclosed neighbor at index 11, because suppression counts the
neighbors of the disturbing cell, not of the receiving cell. -/
theorem C4_counterexample :
    ((get_neighbours 5 sandBlockGrid 17).all
      (fun pn => pn.2.any fun c => c.cell_type.is_movable_solid)) = true ∧
    (Grid.execute_logic 5 rngZero sandBlockGrid 0).map
      (fun r => (r.1.grid.get? 17).map Cell.free_falling) = some (some 8) := by
  constructor <;> with_unfolding_all decide

/-- C4 (amended): suppression is keyed to the disturbing cell: a cell that
itself counts 5 or more movable-solid neighbors emits no disturb signal (the
change buffer is returned untouched); being enclosed does not protect a cell
from signals emitted by its neighbors. -/
theorem C4_no_disturb_amended (gw : Nat) (rng : RngStream) (g : Grid)
    (self : Cell) (pos : Nat) (ch : Changes) (k : Nat) (c' : Cell)
    (ch' : Changes) (k' : Nat)
    (hcount : 5 ≤ (movable_solid_neighbours gw g pos).length)
    (h : Cell.movable_solid_logic gw rng g self pos ch k = some (c', ch', k')) :
    ch' = ch :=
  msl_no_disturb gw rng g self pos ch k c' ch' k' hcount h

/-- Witness for C4 (amended) at a concrete input: the fully enclosed center
of the all-sand 3 x 3 grid counts 8 movable-solid neighbors and emits
nothing. -/
theorem C4_witness :
    5 ≤ (movable_solid_neighbours 3 fullSandGrid 4).length ∧
    (Changes.default : Changes) = Changes.default :=
  ⟨by with_unfolding_all decide,
   C4_no_disturb_amended 3 rngZero fullSandGrid (testCell .Sand 0 4) 4
     Changes.default 0
     { cell_type := .Sand, velocity := (0, 2), free_falling := 4, pos := 4,
       grounded := true, color := (0, 0, 0, 255) }
     Changes.default 1 (by with_unfolding_all decide)
     (by with_unfolding_all rfl)⟩

/-- Counterexample to C1: the 5 x 5 sand-block grid satisfies the free-fall
invariant, yet at the end of one tick the cell at index 17 holds
`free_falling = 8 = 2T`: the override phase runs last in `execute_logic`, so
the transient marker written in a tick persists past that tick and is only
resolved by the NEXT tick that reads it. -/
theorem C1_counterexample :
    FreeFallInv sandBlockGrid ∧
    (Grid.execute_logic 5 rngZero sandBlockGrid 0).map
      (fun r => (r.1.grid.get? 17).map (fun c => decide (c.free_falling ≤ 4))) =
      some (some false) := by
  constructor
  · show ∀ c ∈ sandBlockGrid.grid, c.free_falling ≤ 4 ∨ c.free_falling = 8
    with_unfolding_all decide
  · with_unfolding_all decide

/-- C1 (amended): every tick maps a grid whose counters lie in `[0,4] ∪ {8}`
to a grid whose counters lie in `[0,4] ∪ {8}` (the marker 8 CAN persist past
the tick that set it), and whenever the force model processes a cell holding
the marker 8 it resolves it to a value in `[0,4]`. -/
theorem C1_free_fall_amended (gw : Nat) (rng : RngStream) (g : Grid) (k : Nat)
    (hgw0 : 0 < gw) (hgw : (gw : Int) ≤ 2 ^ 64) (hWF : Grid.Wellformed gw g)
    (hinv : FreeFallInv g) (self : Cell) (pos : Nat) (ch : Changes) (kk : Nat)
    (c' : Cell) (ch' : Changes) (k' : Nat) (h8 : self.free_falling = 8)
    (hm : Cell.movable_solid_logic gw rng g self pos ch kk = some (c', ch', k')) :
    (∃ g' k2, Grid.execute_logic gw rng g k = some (g', k2) ∧ FreeFallInv g') ∧
    c'.free_falling ≤ 4 := by
  constructor
  · obtain ⟨g', k2, h1, -, -, h4⟩ := execute_logic_spec gw rng g k hgw0 hgw hWF
    exact ⟨g', k2, h1, h4 hinv⟩
  · obtain ⟨c2, ch2, k2, hm2, -, -, -, -, -, hff⟩ :=
      movable_solid_logic_spec gw rng g self pos ch kk
    rw [hm2] at hm
    obtain ⟨h1, -, -⟩ : c2 = c' ∧ ch2 = ch' ∧ k2 = k' := by simpa using hm
    rw [← h1]
    exact hff (Or.inr h8)

/-- Witness for C1 (amended) at a concrete input: the 1 x 1 sand grid with a
marker-8 cell fed to the force model. -/
theorem C1_witness :
    (∃ g' k2, Grid.execute_logic 1 rngZero gridOne 0 = some (g', k2) ∧
      FreeFallInv g') ∧
    ({ cell_type := .Sand, velocity := ((0 : Rat), (2 : Rat)), free_falling := 4,
       pos := 0, grounded := true, color := (0, 0, 0, 255) } : Cell).free_falling
      ≤ 4 :=
  C1_free_fall_amended 1 rngZero gridOne 0 (by decide) (by decide) rfl
    (show ∀ c ∈ gridOne.grid, c.free_falling ≤ 4 ∨ c.free_falling = 8 from by
      with_unfolding_all decide) (testCell .Sand 8 0) 0 Changes.default 0
    _ Changes.default 0 rfl (by with_unfolding_all rfl)

/-- Counterexample to C8: the random source is ambient (each `gen_bool` call
reads the thread-local stream), not a seedable generator held by the tick
context; two runs from the identical initial grid under two different
ambient streams produce different states after one tick. -/
theorem C8_counterexample :
    (Grid.execute_logic 3 rngZero pairGrid 0).map
      (fun r => r.1.grid.map Cell.free_falling) ≠
    (Grid.execute_logic 3 rngFirstHigh pairGrid 0).map
      (fun r => r.1.grid.map Cell.free_falling) := by
  with_unfolding_all decide

/-- C8 (amended): determinism holds only stream-extensionally: two runs from
identical initial grids whose ambient draw streams agree at every counter
produce identical state sequences over every number of ticks. -/
theorem C8_determinism_amended (gw : Nat) (r1 r2 : RngStream) (n : Nat)
    (g1 g2 : Grid) (k : Nat) (hg : g1 = g2) (hr : ∀ i, r1 i = r2 i) :
    state_sequence gw r1 n g1 k = state_sequence gw r2 n g2 k := by
  subst hg
  rw [funext hr]

/-- Witness for C8 (amended) at a concrete input. -/
theorem C8_witness :
    state_sequence 3 rngZero 2 pairGrid 0 = state_sequence 3 rngZero 2 pairGrid 0 :=
  C8_determinism_amended 3 rngZero rngZero 2 pairGrid pairGrid 0 rfl (fun _ => rfl)

/-- C10: a tick preserves the multiset of cell materials: whenever
`execute_logic` succeeds, the count of cells of each material is identical
before and after. -/
theorem C10_material_preserved (gw : Nat) (rng : RngStream) (g : Grid)
    (k : Nat) (g' : Grid) (k' : Nat)
    (hgw0 : 0 < gw) (hgw : (gw : Int) ≤ 2 ^ 64) (hWF : Grid.Wellformed gw g)
    (h : Grid.execute_logic gw rng g k = some (g', k')) :
    Multiset.ofList (g'.grid.map Cell.cell_type) =
      Multiset.ofList (g.grid.map Cell.cell_type) := by
  obtain ⟨g2, k2, he, -, hmul, -⟩ := execute_logic_spec gw rng g k hgw0 hgw hWF
  rw [he] at h
  obtain ⟨h1, -⟩ : g2 = g' ∧ k2 = k' := by simpa using h
  rw [← h1]
  exact hmul

/-- Witness for C10 at a concrete input: one tick of the 1 x 1 sand grid. -/
theorem C10_witness :
    Multiset.ofList (gridOneResult.grid.map Cell.cell_type) =
      Multiset.ofList (gridOne.grid.map Cell.cell_type) :=
  C10_material_preserved 1 rngZero gridOne 0 gridOneResult 0 (by decide)
    (by decide) rfl (by with_unfolding_all rfl)

/-- Every rasterized point of a segment with in-range endpoints is in range
on both axes. -/
theorem generate_line_mem_box (gw : Nat) (pos1 pos2 : Nat × Nat)
    (h1 : pos1.1 < gw) (h2 : pos1.2 < gw) (h3 : pos2.1 < gw) (h4 : pos2.2 < gw) :
    ∀ p ∈ generate_line pos1 pos2,
      0 ≤ p.1 ∧ p.1 < (gw : Int) ∧ 0 ≤ p.2 ∧ p.2 < (gw : Int) := by
  obtain ⟨-, -, -, hbox⟩ := generate_line_spec pos1 pos2
  intro p hp
  obtain ⟨b1, b2, b3, b4⟩ := hbox p hp
  have c1 : ((pos1.1 : Int)) < (gw : Int) := by exact_mod_cast h1
  have c2 : ((pos1.2 : Int)) < (gw : Int) := by exact_mod_cast h2
  have c3 : ((pos2.1 : Int)) < (gw : Int) := by exact_mod_cast h3
  have c4 : ((pos2.2 : Int)) < (gw : Int) := by exact_mod_cast h4
  have n1 : (0 : Int) ≤ pos1.1 := Int.natCast_nonneg _
  have n2 : (0 : Int) ≤ pos1.2 := Int.natCast_nonneg _
  have n3 : (0 : Int) ≤ pos2.1 := Int.natCast_nonneg _
  have n4 : (0 : Int) ≤ pos2.2 := Int.natCast_nonneg _
  rcases lineSx_unit pos1 pos2 with hsx | hsx <;> rw [hsx] at b1 b2 <;>
    rcases lineSy_unit pos1 pos2 with hsy | hsy <;> rw [hsy] at b3 b4 <;> omega

/-- On an in-bounds position, place succeeds and preserves the grid length. -/
theorem place_isSome_len (gw : Nat) (g : Grid) (pos : Nat) (M : CellType)
    (h : pos < g.grid.length) :
    ∃ g', Grid.place gw g pos M = some g' ∧ g'.grid.length = g.grid.length := by
  obtain ⟨c0, hc0⟩ : ∃ c, g.grid.get? pos = some c := ⟨_, List.get?_eq_get h⟩
  simp only [Grid.place, hc0]
  split_ifs
  · exact ⟨_, rfl, by simp⟩
  · exact ⟨_, rfl, rfl⟩

/-- The place loop of `place_line` succeeds on any list of in-range points
over a well-formed grid, and preserves the grid length. -/
theorem placeLineLoop_total (gw : Nat) (M : CellType)
    (hgw : (gw : Int) ≤ 2 ^ 64) :
    ∀ pts : List (Int × Int),
      (∀ p ∈ pts, 0 ≤ p.1 ∧ p.1 < (gw : Int) ∧ 0 ≤ p.2 ∧ p.2 < (gw : Int)) →
      ∀ g : Grid, g.grid.length = gw * gw →
      ∃ g', placeLineLoop gw M pts g = some g' ∧ g'.grid.length = gw * gw
  | [], _, g, hg => ⟨g, rfl, hg⟩
  | p :: rest, hpts, g, hg => by
    obtain ⟨hp1, hp2, hp3, hp4⟩ := hpts p (List.mem_cons_self _ _)
    have e1 : usizeCast p.1 = p.1.toNat := usizeCast_of_range p.1 gw hgw hp1 hp2
    have e2 : usizeCast p.2 = p.2.toNat := usizeCast_of_range p.2 gw hgw hp3 hp4
    have hx : p.1.toNat < gw := by omega
    have hy : p.2.toNat < gw := by omega
    have hidx : usizeCast p.2 * gw + usizeCast p.1 < gw * gw := by
      rw [e1, e2]
      exact flatIndex_lt gw _ _ hx hy
    obtain ⟨g1, hpl, hlen1⟩ := place_isSome_len gw g
      (usizeCast p.2 * gw + usizeCast p.1) M (by omega)
    obtain ⟨g', hrest, hlen⟩ := placeLineLoop_total gw M hgw rest
      (fun q hq => hpts q (List.mem_cons_of_mem _ hq)) g1 (hlen1.trans hg)
    exact ⟨g', by simp only [placeLineLoop, hpl, hrest], hlen⟩

/-- C9: over in-bounds inputs on a well-formed grid, every core operation is
total: a neighbor reference whose target coordinate leaves the grid resolves
to the absent slot `(0, none)` rather than faulting, and `place`,
`place_line`, the movement resolver and the whole tick all return a value
(no panic or out-of-bounds grid index is reachable). -/
theorem C9_totality (gw : Nat) (rng : RngStream) (g : Grid) (k : Nat)
    (pos : Nat) (dir : Int × Int) (self : Cell) (M : CellType)
    (pos1 pos2 : Nat × Nat)
    (hgw0 : 0 < gw) (hgw : (gw : Int) ≤ 2 ^ 64) (hWF : Grid.Wellformed gw g)
    (hpos : pos < GRID_SIZE gw)
    (he1 : pos1.1 < gw) (he2 : pos1.2 < gw) (he3 : pos2.1 < gw)
    (he4 : pos2.2 < gw) :
    ((((pos % gw : Nat) : Int) + dir.1 < 0 ∨
      ((pos % gw : Nat) : Int) + dir.1 ≥ (gw : Int) ∨
      ((pos / gw : Nat) : Int) + dir.2 < 0 ∨
      ((pos / gw : Nat) : Int) + dir.2 ≥ (gw : Int)) →
      get_neighbour gw g pos dir = (0, none)) ∧
    (Grid.place gw g pos M).isSome ∧
    (Grid.place_line gw g pos1 pos2 M).isSome ∧
    (Cell.physics gw g self pos).isSome ∧
    (Grid.execute_logic gw rng g k).isSome := by
  have hWFn : g.grid.length = gw * gw := hWF
  have hposn : pos < gw * gw := by simpa [GRID_SIZE] using hpos
  refine ⟨?_, ?_, ?_, ?_, ?_⟩
  · intro h
    simp only [get_neighbour]
    rw [if_pos h]
  · obtain ⟨g', hp, -⟩ := place_isSome_len gw g pos M (by omega)
    rw [hp]
    rfl
  · obtain ⟨g', hp, -⟩ := placeLineLoop_total gw M hgw (generate_line pos1 pos2)
      (generate_line_mem_box gw pos1 pos2 he1 he2 he3 he4) g hWFn
    show (placeLineLoop gw M (generate_line pos1 pos2) g).isSome
    rw [hp]
    rfl
  · obtain ⟨r, hp, -⟩ := physics_total gw g self pos hgw0 hgw hWFn hposn
    rw [hp]
    rfl
  · obtain ⟨g', k', hp, -, -, -⟩ := execute_logic_spec gw rng g k hgw0 hgw hWF
    rw [hp]
    rfl

/-- Witness for C9 at concrete inputs: the 2 x 2 air grid, with the upward
neighbor reference from the top row resolving to the absent slot. -/
theorem C9_witness :
    ((((0 % 2 : Nat) : Int) + ((0 : Int), (-1 : Int)).1 < 0 ∨
      ((0 % 2 : Nat) : Int) + ((0 : Int), (-1 : Int)).1 ≥ (2 : Int) ∨
      ((0 / 2 : Nat) : Int) + ((0 : Int), (-1 : Int)).2 < 0 ∨
      ((0 / 2 : Nat) : Int) + ((0 : Int), (-1 : Int)).2 ≥ (2 : Int)) →
      get_neighbour 2 airTwoGrid 0 ((0 : Int), (-1 : Int)) = (0, none)) ∧
    (Grid.place 2 airTwoGrid 0 CellType.Sand).isSome ∧
    (Grid.place_line 2 airTwoGrid (0, 0) (1, 1) CellType.Sand).isSome ∧
    (Cell.physics 2 airTwoGrid (Cell.new 2 CellType.Air) 0).isSome ∧
    (Grid.execute_logic 2 rngZero airTwoGrid 0).isSome :=
  C9_totality 2 rngZero airTwoGrid 0 0 ((0 : Int), (-1 : Int))
    (Cell.new 2 CellType.Air) CellType.Sand (0, 0) (1, 1) (by decide)
    (by decide) rfl (by decide) (by decide) (by decide) (by decide) (by decide)
